import Mathlib

/-!
Shallow embedding of the sudoku-solver repository (Go sources
`internal/moves.go`, `internal/cell.go`, `internal/sudoku.go`) and proofs
about the claims of its specification.

Conventions of the embedding:
* Go's mutable `Sudoku` receiver becomes explicit state passing: an operation
  returns the updated grid together with its `error` result, so a grid mutated
  before an error is returned mutated, exactly as the Go caller observes it.
* A Go `*Cell` is identified by its board position `(row, col)`; a Go `Cells`
  value (a slice of cell pointers) becomes a `List Pos`, and every read through
  it goes back to the current grid, matching Go's aliasing of cell pointers.
* Go `panic` on out-of-range candidate values is modelled by `Option`-returning
  versions of the `Moves`/`Cell` operations (`none` = panic).  All in-range
  call sites of the solver use the total restrictions (`Moves.has`,
  `Moves.slice`, `Cell.elim`, `Cell.CanPlay`); bridging lemmas connect the two.
* Machine integers are `Int`/`Nat`; candidate masks are 9-bit `Nat` values.
-/

/-- Position of a cell on the board: (row, col), both 0-based. -/
abbrev Pos := Nat × Nat

/-- Candidate bitmask over the digit values 1..9 (bit k = value k+1),
from `internal/moves.go` (`type Moves int`). -/
abbrev Moves := Nat

/-- The empty candidate set (`empty Moves = 0`). -/
def Moves.empty : Moves := 0

/-- The full candidate set (`full Moves = 0b111111111`). -/
def Moves.full : Moves := 511

/-- `mask(value)` from moves.go; the Go function panics when `value` is
outside 1..9, modelled as `none`. -/
def Moves.mask (value : Int) : Option Moves :=
  if value < 1 ∨ value > 9 then none else some (1 <<< (value.toNat - 1))

/-- `Moves.Contains` from moves.go: `*m & mask(value) != 0`; panics (via
`mask`) when `value` is outside 1..9. -/
def Moves.Contains (m : Moves) (value : Int) : Option Bool :=
  (Moves.mask value).map (fun mk => decide (m &&& mk ≠ 0))

/-- `Moves.Add` from moves.go: no-op returning `false` when present, else OR
in the bit and return `true`; panics when `value` is outside 1..9. -/
def Moves.Add (m : Moves) (value : Int) : Option (Moves × Bool) :=
  match Moves.Contains m value with
  | none => none
  | some true => some (m, false)
  | some false => (Moves.mask value).map (fun mk => (m ||| mk, true))

/-- `Moves.Remove` from moves.go: no-op returning `false` when absent, else
clear the bit (`*m & ^mask(value)`) and return `true`; panics when `value` is
outside 1..9. -/
def Moves.Remove (m : Moves) (value : Int) : Option (Moves × Bool) :=
  match Moves.Contains m value with
  | none => none
  | some false => some (m, false)
  | some true => (Moves.mask value).map (fun mk => (m ^^^ (m &&& mk), true))

/-- The in-range mask: `mask v` for `v` in 1..9 (total restriction used by the
solver's internal call sites, which are all validated to be in range). -/
def Moves.maskN (v : Nat) : Moves := 1 <<< (v - 1)

/-- Total restriction of `Moves.Contains` to in-range values. -/
def Moves.has (m : Moves) (v : Nat) : Bool := m &&& Moves.maskN v ≠ 0

/-- Total restriction of `Moves.Remove` to in-range values. -/
def Moves.remove (m : Moves) (v : Nat) : Moves × Bool :=
  if Moves.has m v then (m ^^^ (m &&& Moves.maskN v), true) else (m, false)

/-- `Moves.Slice` from moves.go: the values 1..9 present in the mask, in
ascending order (its `Contains` calls are always in range, so it is total). -/
def Moves.slice (m : Moves) : List Nat :=
  (List.range' 1 9).filter (fun v => Moves.has m v)

/-- One board cell, from `internal/cell.go`: fixed coordinates, assigned value
(0 = unset) and candidate mask. -/
structure Cell where
  row : Nat
  col : Nat
  value : Nat
  moves : Moves
deriving DecidableEq, Repr

instance : Inhabited Cell := ⟨⟨0, 0, 0, 0⟩⟩

/-- Errors produced by the engine; each constructor corresponds to one
`fmt.Errorf`/`errors.New` site of the Go sources.  `outOfFuel` is the fuel
marker of the embedding of the recursive `Solve` and corresponds to no Go
error. -/
inductive Err where
  | rowOutOfBounds
  | colOutOfBounds
  | valueOutOfBounds
  | alreadySet (row col : Nat)
  | rowConflict (row value : Nat)
  | colConflict (col value : Nat)
  | squareConflict (sqRow sqCol value : Nat)
  | illegalMove (row col value : Nat)
  | cellValueOutOfRange
  | cellAlreadySet (value : Nat)
  | noMovesLeft (row col : Nat)
  | noSolution
  | outOfFuel
deriving DecidableEq, Repr

/-- `Cell.Set` from cell.go: error when the value is out of range or the cell
is already set, otherwise store the value and clear the candidates. -/
def Cell.Set (c : Cell) (value : Int) : Except Err Cell :=
  if value < 1 ∨ value > 9 then .error .cellValueOutOfRange
  else if c.value ≠ 0 then .error (.cellAlreadySet c.value)
  else .ok { c with value := value.toNat, moves := Moves.empty }

/-- `Cell.CanPlay` (total restriction: its `Moves.Contains` call sites are all
in range). -/
def Cell.CanPlay (c : Cell) (v : Nat) : Bool := Moves.has c.moves v

/-- `Cell.EliminateMove` from cell.go: panics (`none`) when the value is out of
range, else removes it from the candidate mask, reporting whether it was
present. -/
def Cell.EliminateMove (c : Cell) (value : Int) : Option (Cell × Bool) :=
  if value < 1 ∨ value > 9 then none
  else
    match Moves.Remove c.moves value with
    | none => none
    | some (m, b) => some ({ c with moves := m }, b)

/-- Total restriction of `Cell.EliminateMove` to in-range values. -/
def Cell.elim (c : Cell) (v : Nat) : Cell × Bool :=
  let (m, b) := Moves.remove c.moves v
  ({ c with moves := m }, b)

/-- `Cell.Moves()` from cell.go: the ascending list of candidate values. -/
def Cell.movesList (c : Cell) : List Nat := Moves.slice c.moves

/-- The grid: 9×9 board of cells (`Sudoku.board [9][9]Cell`), as a list of
rows. -/
structure Sudoku where
  board : List (List Cell)
deriving DecidableEq, Repr

/-- Read the cell at a position (vacuous default outside the board; the solver
only ever reads positions 0..8). -/
def Sudoku.cellAt (s : Sudoku) (p : Pos) : Cell :=
  (((s.board[p.1]?).getD [])[p.2]?).getD default

/-- Write the cell at a position (no-op outside the board). -/
def Sudoku.setCellAt (s : Sudoku) (p : Pos) (c : Cell) : Sudoku :=
  ⟨s.board.set p.1 (((s.board[p.1]?).getD []).set p.2 c)⟩

/-- `Sudoku.Range(top, left, bottom, right)`: positions of the inclusive
rectangle, row-major. -/
def rangePos (top left bottom right : Nat) : List Pos :=
  (List.range' top (bottom + 1 - top)).flatMap fun r =>
    (List.range' left (right + 1 - left)).map fun c => (r, c)

/-- `Sudoku.Cells()`: all 81 positions, row-major. -/
def cellsPos : List Pos := rangePos 0 0 8 8

/-- `Sudoku.Row(row)`. -/
def rowPos (row : Nat) : List Pos := rangePos row 0 row 8

/-- `Sudoku.Col(col)`. -/
def colPos (col : Nat) : List Pos := rangePos 0 col 8 col

/-- `Sudoku.Square(row, col)` (box coordinates 0..2). -/
def squarePos (row col : Nat) : List Pos :=
  rangePos (row * 3) (col * 3) (row * 3 + 2) (col * 3 + 2)

/-- `Sudoku.Rows()`. -/
def rowsPos : List (List Pos) := (List.range 9).map rowPos

/-- `Sudoku.Cols()`. -/
def colsPos : List (List Pos) := (List.range 9).map colPos

/-- `Sudoku.Squares()` (row-major over boxes). -/
def squaresPos : List (List Pos) :=
  (List.range 3).flatMap fun r => (List.range 3).map fun c => squarePos r c

/-- `Sudoku.Groups()`: rows, then columns, then squares. -/
def groupsPos : List (List Pos) := rowsPos ++ colsPos ++ squaresPos

/-- `Cells.FindMove(value)`: the positions whose cells can still play `v`,
read from the current grid. -/
def findMove (s : Sudoku) (ps : List Pos) (v : Nat) : List Pos :=
  ps.filter (fun p => (s.cellAt p).CanPlay v)

/-- `Cells.UnsetOnly()`. -/
def unsetOnly (s : Sudoku) (ps : List Pos) : List Pos :=
  ps.filter (fun p => (s.cellAt p).value == 0)

/-- `Cells.Excluding(other)`: cells whose (row, col) does not occur in
`other`. -/
def excluding (ps other : List Pos) : List Pos :=
  ps.filter (fun p => ¬ other.any (fun q => q.1 == p.1 ∧ q.2 == p.2))

/-- `Cells.RemainingMoves()`: union of the candidate masks. -/
def remainingMoves (s : Sudoku) : List Pos → Moves
  | [] => Moves.empty
  | p :: ps => (s.cellAt p).moves ||| remainingMoves s ps

/-- `Cells.EliminateMove(value)`: remove `v` from every cell of the list,
counting the cells that changed. -/
def eliminateMove (v : Nat) : List Pos → Sudoku → Sudoku × Nat
  | [], s => (s, 0)
  | p :: ps, s =>
    let cb := Cell.elim (s.cellAt p) v
    let r := eliminateMove v ps (s.setCellAt p cb.1)
    (r.1, if cb.2 then r.2 + 1 else r.2)

/-- `Cells.UniqueRows()`: the distinct row indices, ascending. -/
def uniqueRows (ps : List Pos) : List Nat :=
  (List.range 9).filter (fun r => ps.any (fun p => p.1 == r))

/-- `Cells.UniqueCols()`. -/
def uniqueCols (ps : List Pos) : List Nat :=
  (List.range 9).filter (fun c => ps.any (fun p => p.2 == c))

/-- `uniqueSquares(values)` from sudoku.go: distinct `v / 3` band indices. -/
def uniqueSquares (values : List Nat) : List Nat :=
  (List.range 3).filter (fun sq => values.any (fun v => v / 3 == sq))

/-- `Cells.PowerSet()`: subsets of the tail first, then the head consed onto
each of them, exactly as the Go recursion produces them. -/
def powerSet : List Pos → List (List Pos)
  | [] => [[]]
  | x :: xs =>
    let subsets := powerSet xs
    subsets ++ subsets.map (fun tail => x :: tail)

/-- The post-assignment scan of `PlayMove`: the first (row-major) unset cell
with an empty candidate mask, if any. -/
def contradictionScan (s : Sudoku) : Option Pos :=
  cellsPos.find? (fun p => (s.cellAt p).value == 0 && decide ((s.cellAt p).moves = 0))

/-- `Sudoku.PlayMove(row, col, value)` from sudoku.go.  Returns the grid as
the Go caller observes it together with the `error` result: validation
failures leave the grid untouched, the contradiction scan failure returns the
already mutated grid. -/
def Sudoku.PlayMove (s : Sudoku) (row col value : Int) : Sudoku × Option Err :=
  if row < 0 ∨ row ≥ 9 then (s, some .rowOutOfBounds)
  else if col < 0 ∨ col ≥ 9 then (s, some .colOutOfBounds)
  else if value < 1 ∨ value > 9 then (s, some .valueOutOfBounds)
  else
    let r := row.toNat
    let c := col.toNat
    let v := value.toNat
    if (s.cellAt (r, c)).value ≠ 0 then (s, some (.alreadySet r c))
    else if ¬ Moves.has (remainingMoves s (rowPos r)) v then
      (s, some (.rowConflict r v))
    else if ¬ Moves.has (remainingMoves s (colPos c)) v then
      (s, some (.colConflict c v))
    else if ¬ Moves.has (remainingMoves s (squarePos (r / 3) (c / 3))) v then
      (s, some (.squareConflict (r / 3) (c / 3) v))
    else if ¬ Cell.CanPlay (s.cellAt (r, c)) v then
      (s, some (.illegalMove r c v))
    else
      match Cell.Set (s.cellAt (r, c)) value with
      | .error e => (s, some e)
      | .ok cell' =>
        let s1 := s.setCellAt (r, c) cell'
        let s2 := (eliminateMove v (rowPos r) s1).1
        let s3 := (eliminateMove v (colPos c) s2).1
        let s4 := (eliminateMove v (squarePos (r / 3) (c / 3)) s3).1
        match contradictionScan s4 with
        | some p => (s4, some (.noMovesLeft p.1 p.2))
        | none => (s4, none)

/-- The initial grid of `NewSudoku`: every cell unset with the full candidate
mask and its own coordinates. -/
def initialSudoku : Sudoku :=
  ⟨(List.range 9).map fun r => (List.range 9).map fun c => ⟨r, c, 0, Moves.full⟩⟩

/-- Clue lookup in a 9×9 clue array (0 = blank). -/
def clueAt (clues : List (List Int)) (p : Pos) : Int :=
  (((clues[p.1]?).getD [])[p.2]?).getD 0

/-- The clue-playing loop of `NewSudoku`: row-major `PlayMove` on every
non-zero clue, stopping at the first error (the partially built grid is
returned with it). -/
def playClues (clues : List (List Int)) : List Pos → Sudoku → Sudoku × Option Err
  | [], s => (s, none)
  | p :: ps, s =>
    if clueAt clues p ≠ 0 then
      match s.PlayMove p.1 p.2 (clueAt clues p) with
      | (s', some e) => (s', some e)
      | (s', none) => playClues clues ps s'
    else playClues clues ps s

/-- `NewSudoku(board)` from sudoku.go. -/
def NewSudoku (clues : List (List Int)) : Sudoku × Option Err :=
  playClues clues cellsPos initialSudoku

/-- Result of an aborting deduction pass: grid, cumulative change count, and
the error that ended `Solve` early, if any. -/
abbrev PassOut := Sudoku × Nat × Option Err

/-- The naked-single pass of `Solve`: scan all cells row-major and play every
cell whose candidate list has length one, aborting on a `PlayMove` error. -/
def nakedLoop : List Pos → Sudoku → Nat → PassOut
  | [], s, m => (s, m, none)
  | p :: ps, s, m =>
    let pm := Cell.movesList (s.cellAt p)
    if pm.length == 1 then
      match s.PlayMove p.1 p.2 (pm.headD 0) with
      | (s', some e) => (s', m, some e)
      | (s', none) => nakedLoop ps s' (m + 1)
    else nakedLoop ps s m

/-- The value loop of a hidden-single pass: for each value of the snapshot
list, if exactly one cell of the group can play it, play it there. -/
def hiddenValueLoop (group : List Pos) : List Nat → Sudoku → Nat → PassOut
  | [], s, m => (s, m, none)
  | v :: vs, s, m =>
    let cells := findMove s group v
    if cells.length == 1 then
      let p := cells.headD (0, 0)
      match s.PlayMove p.1 p.2 v with
      | (s', some e) => (s', m, some e)
      | (s', none) => hiddenValueLoop group vs s' (m + 1)
    else hiddenValueLoop group vs s m

/-- The group loop of a hidden-single pass; the value list is computed once
per group, when the group is reached (as in Go, where
`square.RemainingMoves().Slice()` is evaluated at loop entry). -/
def hiddenLoop : List (List Pos) → Sudoku → Nat → PassOut
  | [], s, m => (s, m, none)
  | g :: gs, s, m =>
    match hiddenValueLoop g (Moves.slice (remainingMoves s g)) s m with
    | (s', m', some e) => (s', m', some e)
    | (s', m', none) => hiddenLoop gs s' m'

/-- The value loop of the box-elimination pass: if all cells of the square
able to hold `v` are in one row (resp. column), remove `v` from the rest of
that row (resp. column). -/
def boxElimValueLoop (square : List Pos) : List Nat → Sudoku → Nat → Sudoku × Nat
  | [], s, m => (s, m)
  | v :: vs, s, m =>
    let cells := findMove s square v
    let rows := uniqueRows cells
    let sm1 :=
      if rows.length == 1 then
        let r := eliminateMove v (excluding (rowPos (rows.headD 0)) square) s
        if r.2 > 0 then (r.1, m + 1) else (r.1, m)
      else (s, m)
    let cols := uniqueCols cells
    let sm2 :=
      if cols.length == 1 then
        let r := eliminateMove v (excluding (colPos (cols.headD 0)) square) sm1.1
        if r.2 > 0 then (r.1, sm1.2 + 1) else (r.1, sm1.2)
      else sm1
    boxElimValueLoop square vs sm2.1 sm2.2

/-- The square loop of the box-elimination pass. -/
def boxElimLoop : List (List Pos) → Sudoku → Nat → Sudoku × Nat
  | [], s, m => (s, m)
  | sq :: sqs, s, m =>
    let r := boxElimValueLoop sq (Moves.slice (remainingMoves s sq)) s m
    boxElimLoop sqs r.1 r.2

/-- The value loop of the row line-elimination pass: if all cells of the row
able to hold `v` are in one box, remove `v` from the rest of that box. -/
def lineElimRowValueLoop (row : List Pos) : List Nat → Sudoku → Nat → Sudoku × Nat
  | [], s, m => (s, m)
  | v :: vs, s, m =>
    let cells := findMove s row v
    let squareCols := uniqueSquares (uniqueCols cells)
    if squareCols.length == 1 then
      let sqRow := (row.headD (0, 0)).1 / 3
      let r := eliminateMove v (excluding (squarePos sqRow (squareCols.headD 0)) row) s
      lineElimRowValueLoop row vs r.1 (if r.2 > 0 then m + 1 else m)
    else lineElimRowValueLoop row vs s m

/-- The row loop of the row line-elimination pass. -/
def lineElimRowLoop : List (List Pos) → Sudoku → Nat → Sudoku × Nat
  | [], s, m => (s, m)
  | g :: gs, s, m =>
    let r := lineElimRowValueLoop g (Moves.slice (remainingMoves s g)) s m
    lineElimRowLoop gs r.1 r.2

/-- The value loop of the column line-elimination pass. -/
def lineElimColValueLoop (col : List Pos) : List Nat → Sudoku → Nat → Sudoku × Nat
  | [], s, m => (s, m)
  | v :: vs, s, m =>
    let cells := findMove s col v
    let squareRows := uniqueSquares (uniqueRows cells)
    if squareRows.length == 1 then
      let sqCol := (col.headD (0, 0)).2 / 3
      let r := eliminateMove v (excluding (squarePos (squareRows.headD 0) sqCol) col) s
      lineElimColValueLoop col vs r.1 (if r.2 > 0 then m + 1 else m)
    else lineElimColValueLoop col vs s m

/-- The column loop of the column line-elimination pass. -/
def lineElimColLoop : List (List Pos) → Sudoku → Nat → Sudoku × Nat
  | [], s, m => (s, m)
  | g :: gs, s, m =>
    let r := lineElimColValueLoop g (Moves.slice (remainingMoves s g)) s m
    lineElimColLoop gs r.1 r.2

/-- The value loop of the subset-exclusion pass: eliminate each value of the
subset's candidate union from the other cells of the group that can still
play it, one counted change per value that had such cells. -/
def subsetValueLoop (other : List Pos) : List Nat → Sudoku → Nat → Sudoku × Nat
  | [], s, m => (s, m)
  | v :: vs, s, m =>
    let excludable := findMove s other v
    if excludable.length > 0 then
      let r := eliminateMove v excludable s
      subsetValueLoop other vs r.1 (m + 1)
    else subsetValueLoop other vs s m

/-- One subset of the subset-exclusion pass: skipped when smaller than 2 or
equal in size to the whole unset group; otherwise triggers exactly when the
cardinality of the subset's candidate union equals the subset size. -/
def subsetApply (groupUnset sub : List Pos) (s : Sudoku) (m : Nat) : Sudoku × Nat :=
  if sub.length < 2 ∨ sub.length == groupUnset.length then (s, m)
  else
    let rm := Moves.slice (remainingMoves s sub)
    if sub.length == rm.length then
      subsetValueLoop (excluding groupUnset sub) rm s m
    else (s, m)

/-- The subset loop of the subset-exclusion pass over one group. -/
def subsetLoop (groupUnset : List Pos) : List (List Pos) → Sudoku → Nat → Sudoku × Nat
  | [], s, m => (s, m)
  | sub :: subs, s, m =>
    let r := subsetApply groupUnset sub s m
    subsetLoop groupUnset subs r.1 r.2

/-- The group loop of the subset-exclusion pass: the unset sublist of each
group is snapshotted when the group is reached, its power set enumerated, and
each subset processed in order. -/
def subsetGroupLoop : List (List Pos) → Sudoku → Nat → Sudoku × Nat
  | [], s, m => (s, m)
  | g :: gs, s, m =>
    let gu := unsetOnly s g
    let r := subsetLoop gu (powerSet gu) s m
    subsetGroupLoop gs r.1 r.2

/-- Sequencing of aborting passes (the Go early `return err`): an error
short-circuits, otherwise the continuation runs on the updated grid and
counter. -/
def passThen (out : PassOut) (k : Sudoku → Nat → PassOut) : PassOut :=
  match out.2.2 with
  | some e => (out.1, out.2.1, some e)
  | none => k out.1 out.2.1

/-- The four deduction techniques that `Solve` applies unconditionally at the
start of every call: naked single, hidden single (squares, rows, columns),
box elimination by line, line elimination by box, threading the change
count and aborting on the first `PlayMove` error. -/
def deductionSweep (s : Sudoku) : PassOut :=
  passThen (nakedLoop cellsPos s 0) fun s1 m1 =>
  passThen (hiddenLoop squaresPos s1 m1) fun s2 m2 =>
  passThen (hiddenLoop rowsPos s2 m2) fun s3 m3 =>
  passThen (hiddenLoop colsPos s3 m3) fun s4 m4 =>
    let r5 := boxElimLoop squaresPos s4 m4
    let r6 := lineElimRowLoop rowsPos r5.1 r5.2
    let r7 := lineElimColLoop colsPos r6.1 r6.2
    (r7.1, r7.2, none)

/-- `Sudoku.Solve()` from sudoku.go, with explicit recursion fuel (the Go
recursion is bounded; `Solve` with enough fuel never returns `outOfFuel`).
Each call runs the four-technique sweep, aborts on its error, returns success
when the grid is complete, recurses when the sweep made changes, and
otherwise runs the subset-exclusion pass, recursing when it made changes and
failing with `noSolution` when it made none.  The guessing block of the Go
source is commented out and therefore absent. -/
def Solve : Nat → Sudoku → Sudoku × Option Err
  | 0, s => (s, some .outOfFuel)
  | fuel + 1, s =>
    let d := deductionSweep s
    match d.2.2 with
    | some e => (d.1, some e)
    | none =>
      if (unsetOnly d.1 cellsPos).length == 0 then (d.1, none)
      else if d.2.1 > 0 then Solve fuel d.1
      else
        let r := subsetGroupLoop groupsPos d.1 d.2.1
        if r.2 > 0 then Solve fuel r.1 else (r.1, some .noSolution)

/-- Modelled from the spec for comparison with `Solve` (§4.3/§4.4): "A full
sweep applies all five in sequence and reports the total change count" and
"Run sweeps repeatedly while each sweep reports at least one change" — i.e.
the subset-exclusion pass is part of every sweep, before deciding whether any
change was made, with the same terminal behaviour as the code otherwise. -/
def SolveClaimed : Nat → Sudoku → Sudoku × Option Err
  | 0, s => (s, some .outOfFuel)
  | fuel + 1, s =>
    let d := deductionSweep s
    match d.2.2 with
    | some e => (d.1, some e)
    | none =>
      let r := subsetGroupLoop groupsPos d.1 d.2.1
      if (unsetOnly r.1 cellsPos).length == 0 then (r.1, none)
      else if r.2 > 0 then SolveClaimed fuel r.1
      else (r.1, some .noSolution)

/-- `Sudoku.Clone()` from sudoku.go: the board array is copied by value
(`Cell` contains only scalar fields), so the clone reproduces every cell's
full state. -/
def Sudoku.Clone (s : Sudoku) : Sudoku := ⟨s.board⟩

/-- Build a grid from literal (value, mask) pairs, row-major, filling in the
coordinate fields the way `NewSudoku` lays the board out. -/
def mkSudoku (data : List (List (Nat × Nat))) : Sudoku :=
  ⟨data.enum.map fun rc =>
    rc.2.enum.map fun cc => ⟨rc.1, cc.1, cc.2.1, cc.2.2⟩⟩

/-- One engine operation on a grid, for stating grid-lifetime invariants:
a `PlayMove`, a group elimination, a four-technique sweep, a subset-exclusion
pass, or a whole `Solve` run.  Each is interpreted by `applyOp` as the grid it
leaves behind. -/
inductive Op where
  | play (row col value : Int)
  | eliminate (v : Nat) (ps : List Pos)
  | sweep
  | subset
  | solve (fuel : Nat)

/-- The grid an operation leaves behind. -/
def applyOp (s : Sudoku) : Op → Sudoku
  | .play row col value => (s.PlayMove row col value).1
  | .eliminate v ps => (eliminateMove v ps s).1
  | .sweep => (deductionSweep s).1
  | .subset => (subsetGroupLoop groupsPos s 0).1
  | .solve fuel => (Solve fuel s).1

/-- Run a sequence of operations left to right. -/
def runOps (s : Sudoku) : List Op → Sudoku
  | [] => s
  | op :: ops => runOps (applyOp s op) ops

/-- A solution of a clue array, in the spec's sense (§2): an assignment of a
digit 1..9 to every cell that extends the clues and repeats no digit inside
any row, column or box. -/
def IsSolution (clues : List (List Int)) (sol : Pos → Nat) : Prop :=
  (∀ p ∈ cellsPos, 1 ≤ sol p ∧ sol p ≤ 9) ∧
  (∀ p ∈ cellsPos, clueAt clues p ≠ 0 → (sol p : Int) = clueAt clues p) ∧
  (∀ g ∈ groupsPos, ∀ p ∈ g, ∀ q ∈ g, p ≠ q → sol p ≠ sol q)

/-- Clue array of a fully-solvable puzzle whose four blanks form a deadly
rectangle (rows 0/1, columns 1/8, values 4/5): every deduction technique
stalls on it, yet both completions are one assignment away. -/
def cluesC1 : List (List Int) := [
  [2, 0, 9, 3, 6, 8, 7, 1, 0],
  [3, 0, 6, 9, 7, 1, 8, 2, 0],
  [7, 8, 1, 5, 4, 2, 6, 3, 9],
  [5, 1, 2, 7, 8, 3, 4, 9, 6],
  [8, 7, 4, 6, 2, 9, 1, 5, 3],
  [6, 9, 3, 1, 5, 4, 2, 7, 8],
  [9, 6, 7, 4, 1, 5, 3, 8, 2],
  [4, 2, 5, 8, 3, 7, 9, 6, 1],
  [1, 3, 8, 2, 9, 6, 5, 4, 7]]

/-- The grid `NewSudoku cluesC1` constructs: the four rectangle corners are
unset with candidate mask 24 = {4, 5}. -/
def gridC1 : Sudoku := mkSudoku [
  [(2, 0), (0, 24), (9, 0), (3, 0), (6, 0), (8, 0), (7, 0), (1, 0), (0, 24)],
  [(3, 0), (0, 24), (6, 0), (9, 0), (7, 0), (1, 0), (8, 0), (2, 0), (0, 24)],
  [(7, 0), (8, 0), (1, 0), (5, 0), (4, 0), (2, 0), (6, 0), (3, 0), (9, 0)],
  [(5, 0), (1, 0), (2, 0), (7, 0), (8, 0), (3, 0), (4, 0), (9, 0), (6, 0)],
  [(8, 0), (7, 0), (4, 0), (6, 0), (2, 0), (9, 0), (1, 0), (5, 0), (3, 0)],
  [(6, 0), (9, 0), (3, 0), (1, 0), (5, 0), (4, 0), (2, 0), (7, 0), (8, 0)],
  [(9, 0), (6, 0), (7, 0), (4, 0), (1, 0), (5, 0), (3, 0), (8, 0), (2, 0)],
  [(4, 0), (2, 0), (5, 0), (8, 0), (3, 0), (7, 0), (9, 0), (6, 0), (1, 0)],
  [(1, 0), (3, 0), (8, 0), (2, 0), (9, 0), (6, 0), (5, 0), (4, 0), (7, 0)]]

/-- A mid-solve state on which `Solve` and the spec's five-technique sweep
diverge: the four techniques make changes, so the code defers the subset
pass, while the spec's sweep runs it in the same iteration; the two runs then
detect their contradictions at different cells. -/
def gridC2 : Sudoku := mkSudoku [
  [(1, 0), (2, 0), (3, 0), (4, 0), (5, 0), (6, 0), (7, 0), (8, 0), (9, 0)],
  [(4, 0), (0, 41), (0, 12), (0, 40), (0, 37), (9, 0), (1, 0), (2, 0), (3, 0)],
  [(0, 63), (0, 22), (0, 40), (0, 13), (2, 0), (3, 0), (4, 0), (5, 0), (6, 0)],
  [(2, 0), (3, 0), (4, 0), (5, 0), (6, 0), (7, 0), (8, 0), (9, 0), (1, 0)],
  [(0, 63), (0, 63), (7, 0), (8, 0), (9, 0), (1, 0), (2, 0), (3, 0), (4, 0)],
  [(8, 0), (9, 0), (1, 0), (2, 0), (3, 0), (4, 0), (5, 0), (6, 0), (7, 0)],
  [(3, 0), (4, 0), (0, 37), (0, 37), (7, 0), (8, 0), (9, 0), (1, 0), (2, 0)],
  [(6, 0), (7, 0), (8, 0), (9, 0), (1, 0), (2, 0), (3, 0), (4, 0), (5, 0)],
  [(9, 0), (1, 0), (0, 37), (3, 0), (0, 37), (5, 0), (6, 0), (7, 0), (8, 0)]]

/-- Clue array of an unsatisfiable puzzle: (0,0) and (0,1) are both forced to
5 (row 0 holds 1,2,3,4,6,7,8 and their box holds 9), yet share row 0. -/
def cluesC6 : List (List Int) := [
  [0, 0, 1, 2, 3, 4, 6, 7, 8],
  [9, 0, 0, 0, 0, 0, 0, 0, 0],
  [0, 0, 0, 0, 0, 0, 0, 0, 0],
  [0, 0, 0, 0, 0, 0, 0, 0, 0],
  [0, 0, 0, 0, 0, 0, 0, 0, 0],
  [0, 0, 0, 0, 0, 0, 0, 0, 0],
  [0, 0, 0, 0, 0, 0, 0, 0, 0],
  [0, 0, 0, 0, 0, 0, 0, 0, 0],
  [0, 0, 0, 0, 0, 0, 0, 0, 0]]

/-- The grid `NewSudoku cluesC6` constructs without error. -/
def gridC6 : Sudoku := mkSudoku [
  [(0, 16), (0, 16), (1, 0), (2, 0), (3, 0), (4, 0), (6, 0), (7, 0), (8, 0)],
  [(9, 0), (0, 254), (0, 254), (0, 241), (0, 241), (0, 241), (0, 31), (0, 31), (0, 31)],
  [(0, 254), (0, 254), (0, 254), (0, 497), (0, 497), (0, 497), (0, 287), (0, 287), (0, 287)],
  [(0, 255), (0, 511), (0, 510), (0, 509), (0, 507), (0, 503), (0, 479), (0, 447), (0, 383)],
  [(0, 255), (0, 511), (0, 510), (0, 509), (0, 507), (0, 503), (0, 479), (0, 447), (0, 383)],
  [(0, 255), (0, 511), (0, 510), (0, 509), (0, 507), (0, 503), (0, 479), (0, 447), (0, 383)],
  [(0, 255), (0, 511), (0, 510), (0, 509), (0, 507), (0, 503), (0, 479), (0, 447), (0, 383)],
  [(0, 255), (0, 511), (0, 510), (0, 509), (0, 507), (0, 503), (0, 479), (0, 447), (0, 383)],
  [(0, 255), (0, 511), (0, 510), (0, 509), (0, 507), (0, 503), (0, 479), (0, 447), (0, 383)]]

/-- The grid one four-technique sweep of `Solve` turns `gridC2` into (with
change count 7 and no error); fixed as a literal so the sweep is evaluated
once and its outputs read off. -/
def gridC2s : Sudoku := mkSudoku [
  [(1, 0), (2, 0), (3, 0), (4, 0), (5, 0), (6, 0), (7, 0), (8, 0), (9, 0)],
  [(4, 0), (0, 1), (0, 8), (0, 40), (0, 37), (9, 0), (1, 0), (2, 0), (3, 0)],
  [(0, 55), (0, 22), (0, 8), (0, 9), (2, 0), (3, 0), (4, 0), (5, 0), (6, 0)],
  [(2, 0), (3, 0), (4, 0), (5, 0), (6, 0), (7, 0), (8, 0), (9, 0), (1, 0)],
  [(0, 31), (0, 63), (7, 0), (8, 0), (9, 0), (1, 0), (2, 0), (3, 0), (4, 0)],
  [(8, 0), (9, 0), (1, 0), (2, 0), (3, 0), (4, 0), (5, 0), (6, 0), (7, 0)],
  [(3, 0), (4, 0), (0, 37), (0, 37), (7, 0), (8, 0), (9, 0), (1, 0), (2, 0)],
  [(6, 0), (7, 0), (8, 0), (9, 0), (1, 0), (2, 0), (3, 0), (4, 0), (5, 0)],
  [(9, 0), (1, 0), (0, 37), (3, 0), (0, 33), (5, 0), (6, 0), (7, 0), (8, 0)]]

/-- The grid `assignResult initialSudoku 0 0 5` produces: 5 assigned at
(0,0), the candidate 5 stripped from its row, column and box (495 = full
minus 5); fixed as a literal so the assignment is evaluated once. -/
def gridC3 : Sudoku := mkSudoku [
  [(5, 0), (0, 495), (0, 495), (0, 495), (0, 495), (0, 495), (0, 495), (0, 495), (0, 495)],
  [(0, 495), (0, 495), (0, 495), (0, 511), (0, 511), (0, 511), (0, 511), (0, 511), (0, 511)],
  [(0, 495), (0, 495), (0, 495), (0, 511), (0, 511), (0, 511), (0, 511), (0, 511), (0, 511)],
  [(0, 495), (0, 511), (0, 511), (0, 511), (0, 511), (0, 511), (0, 511), (0, 511), (0, 511)],
  [(0, 495), (0, 511), (0, 511), (0, 511), (0, 511), (0, 511), (0, 511), (0, 511), (0, 511)],
  [(0, 495), (0, 511), (0, 511), (0, 511), (0, 511), (0, 511), (0, 511), (0, 511), (0, 511)],
  [(0, 495), (0, 511), (0, 511), (0, 511), (0, 511), (0, 511), (0, 511), (0, 511), (0, 511)],
  [(0, 495), (0, 511), (0, 511), (0, 511), (0, 511), (0, 511), (0, 511), (0, 511), (0, 511)],
  [(0, 495), (0, 511), (0, 511), (0, 511), (0, 511), (0, 511), (0, 511), (0, 511), (0, 511)]]

/-- Three unset cells with candidate masks {1,2}, {1,2}, {1,3}: the first two
form a qualifying pair, all three together are the spec's degenerate
whole-group subset. -/
def gridC4 : Sudoku := mkSudoku [[(0, 3), (0, 3), (0, 5)]]

/-- A grid where playing 5 at (0,0) is legal but empties the candidate set of
(0,1), so `PlayMove` fails its contradiction scan after mutating. -/
def gridC10 : Sudoku := mkSudoku [[(0, 48), (0, 16)]]

set_option maxRecDepth 100000
set_option maxHeartbeats 4000000

/-! ### Basic lemmas about the candidate-mask operations -/

theorem Moves.maskN_eq_two_pow (v : Nat) : Moves.maskN v = 2 ^ (v - 1) := by
  simp [Moves.maskN, Nat.one_shiftLeft]

theorem Moves.has_eq_testBit (m : Moves) (v : Nat) :
    Moves.has m v = m.testBit (v - 1) := by
  rw [Moves.has, Moves.maskN_eq_two_pow]
  cases h : m.testBit (v - 1) with
  | false => simp [Nat.and_two_pow, h]
  | true => simp [Nat.and_two_pow, h, Nat.pos_iff_ne_zero]

theorem Moves.remove_testBit_self (m : Moves) (v : Nat) :
    ((Moves.remove m v).1).testBit (v - 1) = false := by
  rw [Moves.remove]
  by_cases h : Moves.has m v
  · rw [if_pos h, Nat.testBit_xor, Nat.testBit_and, Moves.maskN_eq_two_pow,
      Nat.testBit_two_pow]
    cases m.testBit (v - 1) <;> simp
  · rw [if_neg h]
    rw [Moves.has_eq_testBit] at h
    simpa using h

theorem Moves.remove_testBit_ne (m : Moves) (v i : Nat) (hi : i ≠ v - 1) :
    ((Moves.remove m v).1).testBit i = m.testBit i := by
  rw [Moves.remove]
  by_cases h : Moves.has m v
  · rw [if_pos h, Nat.testBit_xor, Nat.testBit_and, Moves.maskN_eq_two_pow,
      Nat.testBit_two_pow]
    have hvi : ¬ (v - 1 = i) := fun hh => hi hh.symm
    simp [hvi]
  · rw [if_neg h]

theorem Moves.remove_snd (m : Moves) (v : Nat) :
    (Moves.remove m v).2 = Moves.has m v := by
  rw [Moves.remove]
  by_cases h : Moves.has m v <;> simp [h]

theorem Moves.has_remove_self (m : Moves) (v : Nat) :
    Moves.has (Moves.remove m v).1 v = false := by
  rw [Moves.has_eq_testBit, Moves.remove_testBit_self]

/-- Submask order on candidate masks. -/
def MSub (a b : Moves) : Prop := ∀ i, a.testBit i = true → b.testBit i = true

theorem MSub.sub_refl (a : Moves) : MSub a a := fun _ h => h

theorem MSub.sub_trans {a b c : Moves} (h1 : MSub a b) (h2 : MSub b c) : MSub a c :=
  fun i h => h2 i (h1 i h)

theorem MSub.remove_left (m : Moves) (v : Nat) : MSub (Moves.remove m v).1 m := by
  intro i h
  by_cases hi : i = v - 1
  · rw [hi, Moves.remove_testBit_self] at h
    cases h
  · rwa [Moves.remove_testBit_ne m v i hi] at h

theorem MSub.has_false {a b : Moves} (h : MSub a b) {v : Nat}
    (hb : Moves.has b v = false) : Moves.has a v = false := by
  rw [Moves.has_eq_testBit] at *
  cases ha : a.testBit (v - 1) with
  | false => rfl
  | true => rw [h _ ha] at hb; exact hb

theorem Moves.mem_slice {m : Moves} {w : Nat} :
    w ∈ Moves.slice m ↔ 1 ≤ w ∧ w < 10 ∧ Moves.has m w = true := by
  simp only [Moves.slice, List.mem_filter, List.mem_range']
  constructor
  · rintro ⟨⟨i, hi, rfl⟩, hm⟩
    exact ⟨by omega, by omega, hm⟩
  · rintro ⟨h1, h2, hm⟩
    exact ⟨⟨w - 1, by omega, by omega⟩, hm⟩

theorem Moves.slice_zero : Moves.slice 0 = [] := by decide

theorem Moves.slice_sub_length {a b : Moves} (h : MSub a b) :
    (Moves.slice a).length ≤ (Moves.slice b).length := by
  simp only [Moves.slice]
  rw [← List.countP_eq_length_filter, ← List.countP_eq_length_filter]
  refine List.countP_mono_left ?_
  intro v _ hv
  rw [Moves.has_eq_testBit] at *
  exact h _ hv

/-- Counting helper: a pointwise-smaller predicate that misses a member the
larger one catches gives a strictly smaller count. -/
theorem countP_lt_countP {α : Type} (l : List α) (pa pb : α → Bool)
    (hmono : ∀ x ∈ l, pa x = true → pb x = true)
    (x : α) (hx : x ∈ l) (hax : pa x = false) (hbx : pb x = true) :
    l.countP pa < l.countP pb := by
  induction l with
  | nil => cases hx
  | cons y ys ih =>
    have hmono' : ∀ z ∈ ys, pa z = true → pb z = true :=
      fun z hz => hmono z (List.mem_cons_of_mem _ hz)
    rcases List.mem_cons.1 hx with rfl | hmem
    · have e1 : List.countP pa (x :: ys) = List.countP pa ys :=
        List.countP_cons_of_neg _ _ (by simp [hax])
      have e2 : List.countP pb (x :: ys) = List.countP pb ys + 1 :=
        List.countP_cons_of_pos _ _ hbx
      have := List.countP_mono_left hmono'
      omega
    · have hys := ih hmono' hmem
      cases hy : pa y with
      | true =>
        have e1 : List.countP pa (y :: ys) = List.countP pa ys + 1 :=
          List.countP_cons_of_pos _ _ hy
        have e2 : List.countP pb (y :: ys) = List.countP pb ys + 1 :=
          List.countP_cons_of_pos _ _ (hmono y (List.mem_cons_self y ys) hy)
        omega
      | false =>
        have e1 : List.countP pa (y :: ys) = List.countP pa ys :=
          List.countP_cons_of_neg _ _ (by simp [hy])
        cases hby : pb y with
        | true =>
          have e2 : List.countP pb (y :: ys) = List.countP pb ys + 1 :=
            List.countP_cons_of_pos _ _ hby
          omega
        | false =>
          have e2 : List.countP pb (y :: ys) = List.countP pb ys :=
            List.countP_cons_of_neg _ _ (by simp [hby])
          omega

theorem Moves.slice_length_lt {a b : Moves} (h : MSub a b) {v : Nat}
    (h1 : 1 ≤ v) (h2 : v < 10) (hav : Moves.has a v = false)
    (hbv : Moves.has b v = true) :
    (Moves.slice a).length < (Moves.slice b).length := by
  simp only [Moves.slice]
  rw [← List.countP_eq_length_filter, ← List.countP_eq_length_filter]
  refine countP_lt_countP _ _ _ ?_ v ?_ hav hbv
  · intro w _ hw
    rw [Moves.has_eq_testBit] at *
    exact h _ hw
  · simp only [List.mem_range']
    exact ⟨v - 1, by omega, by omega⟩

/-! ### Cell and grid update lemmas -/

theorem Moves.has_zero (v : Nat) : Moves.has 0 v = false := by
  rw [Moves.has_eq_testBit, Nat.zero_testBit]

theorem Cell.elim_fst (c : Cell) (v : Nat) :
    (Cell.elim c v).1 = { c with moves := (Moves.remove c.moves v).1 } := rfl

theorem Cell.elim_snd (c : Cell) (v : Nat) :
    (Cell.elim c v).2 = Moves.has c.moves v := by
  show (Moves.remove c.moves v).2 = _
  exact Moves.remove_snd c.moves v

theorem cell_default_moves : (default : Cell).moves = 0 := rfl

theorem Sudoku.cellAt_setCellAt_ne (s : Sudoku) (p : Pos) (c : Cell) (q : Pos)
    (h : q ≠ p) : (s.setCellAt p c).cellAt q = s.cellAt q := by
  rcases p with ⟨pr, pc⟩
  rcases q with ⟨qr, qc⟩
  simp only [Sudoku.cellAt, Sudoku.setCellAt]
  by_cases hr : qr = pr
  · subst hr
    have hc : qc ≠ pc := fun hh => h (by rw [hh])
    by_cases hlen : qr < s.board.length
    · rw [List.getElem?_set_self hlen]
      simp only [Option.getD_some]
      rw [List.getElem?_set_ne (fun hh => hc hh.symm)]
    · rw [List.set_eq_of_length_le (Nat.le_of_not_lt hlen)]
  · rw [List.getElem?_set_ne (fun hh => hr hh.symm)]

theorem Sudoku.cellAt_setCellAt_self (s : Sudoku) (p : Pos) (c : Cell) :
    (s.setCellAt p c).cellAt p = c ∨
      ((s.setCellAt p c).cellAt p = s.cellAt p ∧ s.cellAt p = default) := by
  rcases p with ⟨pr, pc⟩
  by_cases hlen : pr < s.board.length
  · by_cases hlen2 : pc < ((s.board[pr]?).getD []).length
    · left
      simp only [Sudoku.cellAt, Sudoku.setCellAt]
      rw [List.getElem?_set_self hlen]
      simp only [Option.getD_some]
      rw [List.getElem?_set_self hlen2]
      simp
    · right
      have hnone : ((s.board[pr]?).getD [])[pc]? = none :=
        List.getElem?_eq_none (Nat.le_of_not_lt hlen2)
      have hnone2 : (((s.board[pr]?).getD []).set pc c)[pc]? = none :=
        List.getElem?_eq_none (by simpa using Nat.le_of_not_lt hlen2)
      simp only [Sudoku.cellAt, Sudoku.setCellAt]
      rw [List.getElem?_set_self hlen]
      simp only [Option.getD_some]
      rw [hnone2]
      simp [hnone]
  · right
    have hnone : s.board[pr]? = none :=
      List.getElem?_eq_none (Nat.le_of_not_lt hlen)
    simp only [Sudoku.cellAt, Sudoku.setCellAt]
    rw [List.set_eq_of_length_le (Nat.le_of_not_lt hlen)]
    simp [hnone]

theorem Sudoku.cellAt_setCellAt_self_of_moves_ne (s : Sudoku) (p : Pos) (c : Cell)
    (h : (s.cellAt p).moves ≠ 0) : (s.setCellAt p c).cellAt p = c := by
  rcases Sudoku.cellAt_setCellAt_self s p c with h1 | ⟨-, h2⟩
  · exact h1
  · rw [h2, cell_default_moves] at h
    cases h rfl

/-- Evolution order on grids: candidate masks only shrink and set values are
never changed.  Every operation of the engine evolves the grid. -/
def Evolves (s t : Sudoku) : Prop :=
  ∀ p : Pos, MSub ((t.cellAt p).moves) ((s.cellAt p).moves) ∧
    ((s.cellAt p).value ≠ 0 → (t.cellAt p).value = (s.cellAt p).value)

theorem Evolves.rfl (s : Sudoku) : Evolves s s :=
  fun _ => ⟨MSub.sub_refl _, fun _ => Eq.refl _⟩

theorem Evolves.trans {s t u : Sudoku} (h1 : Evolves s t) (h2 : Evolves t u) :
    Evolves s u := by
  intro p
  refine ⟨MSub.sub_trans ((h2 p).1) ((h1 p).1), fun hv => ?_⟩
  have e1 := (h1 p).2 hv
  have e2 := (h2 p).2 (by rw [e1]; exact hv)
  rw [e2, e1]

theorem Evolves.value_zero {s t : Sudoku} (h : Evolves s t) (p : Pos)
    (hz : (t.cellAt p).value = 0) : (s.cellAt p).value = 0 := by
  by_cases hs : (s.cellAt p).value = 0
  · exact hs
  · rw [(h p).2 hs] at hz
    cases hs hz

theorem Evolves.setCellAt_elim (s : Sudoku) (p : Pos) (v : Nat) :
    Evolves s (s.setCellAt p (Cell.elim (s.cellAt p) v).1) := by
  intro q
  by_cases hq : q = p
  · subst hq
    rcases Sudoku.cellAt_setCellAt_self s q (Cell.elim (s.cellAt q) v).1 with h | ⟨h, -⟩
    · rw [h, Cell.elim_fst]
      exact ⟨MSub.remove_left _ _, fun _ => Eq.refl _⟩
    · rw [h]
      exact ⟨MSub.sub_refl _, fun _ => Eq.refl _⟩
  · rw [Sudoku.cellAt_setCellAt_ne s p _ q hq]
    exact ⟨MSub.sub_refl _, fun _ => Eq.refl _⟩

/-! ### The grid measure: total candidate count plus number of unset cells -/

/-- Contribution of one cell: its candidate count, plus one when unset. -/
def cellMeasure (c : Cell) : Nat :=
  (Moves.slice c.moves).length + (if c.value = 0 then 1 else 0)

/-- The termination measure of `Solve`: summed over the board. -/
def gridMeasure (s : Sudoku) : Nat :=
  (cellsPos.map (fun p => cellMeasure (s.cellAt p))).sum

theorem Evolves.cellMeasure_le {s t : Sudoku} (h : Evolves s t) (p : Pos) :
    cellMeasure (t.cellAt p) ≤ cellMeasure (s.cellAt p) := by
  have h1 := Moves.slice_sub_length (h p).1
  rw [cellMeasure, cellMeasure]
  by_cases hz : (s.cellAt p).value = 0
  · have : (if (t.cellAt p).value = 0 then 1 else 0) ≤ 1 := by
      split <;> omega
    rw [if_pos hz]
    omega
  · rw [if_neg hz, if_neg (by rw [(h p).2 hz]; exact hz)]
    omega

theorem Evolves.gridMeasure_le {s t : Sudoku} (h : Evolves s t) :
    gridMeasure t ≤ gridMeasure s :=
  List.sum_le_sum (fun p _ => h.cellMeasure_le p)

theorem Evolves.gridMeasure_lt {s t : Sudoku} (h : Evolves s t) (p : Pos)
    (hp : p ∈ cellsPos)
    (hlt : cellMeasure (t.cellAt p) < cellMeasure (s.cellAt p)) :
    gridMeasure t < gridMeasure s :=
  List.sum_lt_sum _ _ (fun q _ => h.cellMeasure_le q) ⟨p, hp, hlt⟩

/-! ### Lemmas about the group elimination loop -/

theorem eliminateMove_fst_cons (v : Nat) (p : Pos) (ps : List Pos) (s : Sudoku) :
    eliminateMove v (p :: ps) s =
      ((eliminateMove v ps (s.setCellAt p (Cell.elim (s.cellAt p) v).1)).1,
        if (Cell.elim (s.cellAt p) v).2 then
          (eliminateMove v ps (s.setCellAt p (Cell.elim (s.cellAt p) v).1)).2 + 1
        else (eliminateMove v ps (s.setCellAt p (Cell.elim (s.cellAt p) v).1)).2) :=
  rfl

theorem eliminateMove_evolves (v : Nat) : ∀ (ps : List Pos) (s : Sudoku),
    Evolves s (eliminateMove v ps s).1 := by
  intro ps
  induction ps with
  | nil => intro s; exact Evolves.rfl s
  | cons p ps ih =>
    intro s
    rw [eliminateMove_fst_cons]
    exact Evolves.trans (Evolves.setCellAt_elim s p v) (ih _)

theorem eliminateMove_clears (v : Nat) : ∀ (ps : List Pos) (s : Sudoku),
    ∀ p ∈ ps, Moves.has (((eliminateMove v ps s).1.cellAt p).moves) v = false := by
  intro ps
  induction ps with
  | nil => intro s p hp; cases hp
  | cons q qs ih =>
    intro s p hp
    rw [eliminateMove_fst_cons]
    rcases List.mem_cons.1 hp with rfl | hmem
    · by_cases hq : p ∈ qs
      · exact ih _ p hq
      · set s' := s.setCellAt p (Cell.elim (s.cellAt p) v).1 with hs'
        have hclear : Moves.has ((s'.cellAt p).moves) v = false := by
          rcases Sudoku.cellAt_setCellAt_self s p (Cell.elim (s.cellAt p) v).1 with h | ⟨h, hd⟩
          · rw [hs', h, Cell.elim_fst]
            exact Moves.has_remove_self _ _
          · rw [hs', h, hd, cell_default_moves]
            exact Moves.has_zero v
        exact MSub.has_false ((eliminateMove_evolves v qs s' p).1) hclear
    · exact ih _ p hmem

theorem Moves.moves_ne_zero_of_has {m : Moves} {v : Nat}
    (h : Moves.has m v = true) : m ≠ 0 := by
  intro hz
  rw [hz, Moves.has_zero] at h
  cases h

theorem eliminateMove_measure_lt (v : Nat) (hv1 : 1 ≤ v) (hv2 : v < 10) :
    ∀ (ps : List Pos) (s : Sudoku), (∀ p ∈ ps, p ∈ cellsPos) →
    (eliminateMove v ps s).2 > 0 →
    gridMeasure (eliminateMove v ps s).1 < gridMeasure s := by
  intro ps
  induction ps with
  | nil => intro s _ h; cases h
  | cons q qs ih =>
    intro s hmem hpos
    rw [eliminateMove_fst_cons] at hpos ⊢
    set s' := s.setCellAt q (Cell.elim (s.cellAt q) v).1 with hs'
    have hqmem : q ∈ cellsPos := hmem q (List.mem_cons_self q qs)
    have hevolve1 : Evolves s s' := Evolves.setCellAt_elim s q v
    have hrest : Evolves s' (eliminateMove v qs s').1 := eliminateMove_evolves v qs s'
    cases hch : (Cell.elim (s.cellAt q) v).2 with
    | true =>
      have hhas : Moves.has ((s.cellAt q).moves) v = true := by
        rw [← Cell.elim_snd]; exact hch
      have hland : s'.cellAt q = (Cell.elim (s.cellAt q) v).1 :=
        Sudoku.cellAt_setCellAt_self_of_moves_ne s q _
          (Moves.moves_ne_zero_of_has hhas)
      have hcm : cellMeasure (s'.cellAt q) < cellMeasure (s.cellAt q) := by
        rw [hland, Cell.elim_fst, cellMeasure, cellMeasure]
        have hlt := Moves.slice_length_lt (MSub.remove_left (s.cellAt q).moves v)
          hv1 hv2 (Moves.has_remove_self _ _) hhas
        simp only []
        omega
      have h1 : gridMeasure s' < gridMeasure s :=
        Evolves.gridMeasure_lt hevolve1 q hqmem hcm
      have h2 : gridMeasure (eliminateMove v qs s').1 ≤ gridMeasure s' :=
        hrest.gridMeasure_le
      show gridMeasure (eliminateMove v qs s').1 < gridMeasure s
      omega
    | false =>
      rw [hch] at hpos
      simp only [if_false] at hpos
      have h1 : gridMeasure (eliminateMove v qs s').1 < gridMeasure s' :=
        ih s' (fun p hp => hmem p (List.mem_cons_of_mem _ hp)) hpos
      have h2 : gridMeasure s' ≤ gridMeasure s := hevolve1.gridMeasure_le
      show gridMeasure (eliminateMove v qs s').1 < gridMeasure s
      omega

/-! ### Position-list membership -/

theorem mem_rangePos {t l b r : Nat} {p : Pos} :
    p ∈ rangePos t l b r ↔ t ≤ p.1 ∧ p.1 ≤ b ∧ l ≤ p.2 ∧ p.2 ≤ r := by
  rcases p with ⟨pr, pc⟩
  simp only [rangePos, List.mem_flatMap, List.mem_map, List.mem_range']
  constructor
  · rintro ⟨row, ⟨i, hi, rfl⟩, col, ⟨j, hj, rfl⟩, heq⟩
    rcases heq with ⟨rfl, rfl⟩  
    constructor
    · omega
    · constructor
      · omega
      · omega
  · rintro ⟨h1, h2, h3, h4⟩
    refine ⟨pr, ⟨pr - t, by omega, by omega⟩, ⟨pc, ⟨pc - l, by omega, by omega⟩, rfl⟩⟩

theorem mem_cellsPos {p : Pos} : p ∈ cellsPos ↔ p.1 ≤ 8 ∧ p.2 ≤ 8 := by
  rw [cellsPos, mem_rangePos]
  omega

theorem mem_rowPos {r : Nat} {p : Pos} : p ∈ rowPos r ↔ p.1 = r ∧ p.2 ≤ 8 := by
  rw [rowPos, mem_rangePos]
  omega

theorem mem_colPos {c : Nat} {p : Pos} : p ∈ colPos c ↔ p.1 ≤ 8 ∧ p.2 = c := by
  rw [colPos, mem_rangePos]
  omega

theorem mem_squarePos {i j : Nat} {p : Pos} :
    p ∈ squarePos i j ↔ (i * 3 ≤ p.1 ∧ p.1 ≤ i * 3 + 2 ∧ j * 3 ≤ p.2 ∧ p.2 ≤ j * 3 + 2) := by
  rw [squarePos, mem_rangePos]

/-! ### A normal form for PlayMove -/

/-- The mutation performed by a validated `PlayMove`: set the cell, then
eliminate the value from its row, column and square. -/
def assignResult (s : Sudoku) (r c v : Nat) : Sudoku :=
  (eliminateMove v (squarePos (r / 3) (c / 3))
    (eliminateMove v (colPos c)
      (eliminateMove v (rowPos r)
        (s.setCellAt (r, c) { s.cellAt (r, c) with value := v, moves := Moves.empty })).1).1).1

/-- Every `PlayMove` call either fails a validation check, returning the
unchanged grid with an error other than the contradiction error, or passes
them all, mutates the grid to `assignResult` and reports the result of the
contradiction scan. -/
theorem playMove_shape (s : Sudoku) (row col value : Int) :
    (∃ e, s.PlayMove row col value = (s, some e) ∧ (∀ i j, e ≠ Err.noMovesLeft i j) ∧
      e ≠ Err.outOfFuel) ∨
    (∃ r c v : Nat, row = (r : Int) ∧ col = (c : Int) ∧ value = (v : Int) ∧
      r < 9 ∧ c < 9 ∧ 1 ≤ v ∧ v ≤ 9 ∧
      (s.cellAt (r, c)).value = 0 ∧
      Moves.has (remainingMoves s (rowPos r)) v = true ∧
      Moves.has (remainingMoves s (colPos c)) v = true ∧
      Moves.has (remainingMoves s (squarePos (r / 3) (c / 3))) v = true ∧
      Cell.CanPlay (s.cellAt (r, c)) v = true ∧
      s.PlayMove row col value =
        (assignResult s r c v,
          match contradictionScan (assignResult s r c v) with
          | some p => some (Err.noMovesLeft p.1 p.2)
          | none => none)) := by
  rw [Sudoku.PlayMove]
  by_cases h1 : row < 0 ∨ row ≥ 9
  · rw [if_pos h1]
    exact Or.inl ⟨_, rfl, fun i j => by simp, by simp⟩
  rw [if_neg h1]
  by_cases h2 : col < 0 ∨ col ≥ 9
  · rw [if_pos h2]
    exact Or.inl ⟨_, rfl, fun i j => by simp, by simp⟩
  rw [if_neg h2]
  by_cases h3 : value < 1 ∨ value > 9
  · rw [if_pos h3]
    exact Or.inl ⟨_, rfl, fun i j => by simp, by simp⟩
  rw [if_neg h3]
  simp only []
  by_cases h4 : (s.cellAt (row.toNat, col.toNat)).value ≠ 0
  · rw [if_pos h4]
    exact Or.inl ⟨_, rfl, fun i j => by simp, by simp⟩
  rw [if_neg h4]
  by_cases h5 : ¬ Moves.has (remainingMoves s (rowPos row.toNat)) value.toNat
  · rw [if_pos h5]
    exact Or.inl ⟨_, rfl, fun i j => by simp, by simp⟩
  rw [if_neg h5]
  by_cases h6 : ¬ Moves.has (remainingMoves s (colPos col.toNat)) value.toNat
  · rw [if_pos h6]
    exact Or.inl ⟨_, rfl, fun i j => by simp, by simp⟩
  rw [if_neg h6]
  by_cases h7 : ¬ Moves.has (remainingMoves s (squarePos (row.toNat / 3) (col.toNat / 3))) value.toNat
  · rw [if_pos h7]
    exact Or.inl ⟨_, rfl, fun i j => by simp, by simp⟩
  rw [if_neg h7]
  by_cases h8 : ¬ Cell.CanPlay (s.cellAt (row.toNat, col.toNat)) value.toNat
  · rw [if_pos h8]
    exact Or.inl ⟨_, rfl, fun i j => by simp, by simp⟩
  rw [if_neg h8]
  right
  refine ⟨row.toNat, col.toNat, value.toNat, ?_, ?_, ?_, ?_, ?_, ?_, ?_,
    not_ne_iff.mp h4, not_not.mp h5, not_not.mp h6, not_not.mp h7, not_not.mp h8, ?_⟩
  · omega
  · omega
  · omega
  · omega
  · omega
  · omega
  · omega
  · rw [Cell.Set, if_neg h3, if_neg h4]
    simp only [assignResult]
    split
    next p hp => rfl
    next hp => rfl

theorem MSub.zero (m : Moves) : MSub 0 m := by
  intro i h
  rw [Nat.zero_testBit] at h
  cases h

theorem Evolves.setCellAt_general (s : Sudoku) (p : Pos) (c : Cell)
    (hm : MSub c.moves ((s.cellAt p).moves))
    (hv : (s.cellAt p).value ≠ 0 → c.value = (s.cellAt p).value) :
    Evolves s (s.setCellAt p c) := by
  intro q
  by_cases hq : q = p
  · subst hq
    rcases Sudoku.cellAt_setCellAt_self s q c with h | ⟨h, -⟩
    · rw [h]
      exact ⟨hm, hv⟩
    · rw [h]
      exact ⟨MSub.sub_refl _, fun _ => Eq.refl _⟩
  · rw [Sudoku.cellAt_setCellAt_ne s p _ q hq]
    exact ⟨MSub.sub_refl _, fun _ => Eq.refl _⟩

theorem assignResult_evolves (s : Sudoku) (r c v : Nat)
    (h0 : (s.cellAt (r, c)).value = 0) :
    Evolves s (assignResult s r c v) := by
  have h1 : Evolves s
      (s.setCellAt (r, c) { s.cellAt (r, c) with value := v, moves := Moves.empty }) :=
    Evolves.setCellAt_general s (r, c) _ (MSub.zero _) (fun hne => absurd h0 hne)
  exact Evolves.trans h1 (Evolves.trans (eliminateMove_evolves _ _ _)
    (Evolves.trans (eliminateMove_evolves _ _ _) (eliminateMove_evolves _ _ _)))

theorem assignResult_measure_lt (s : Sudoku) (r c v : Nat)
    (hr : r < 9) (hv1 : 1 ≤ v)
    (h0 : (s.cellAt (r, c)).value = 0) (hc8 : c < 9)
    (hcan : Cell.CanPlay (s.cellAt (r, c)) v = true) :
    gridMeasure (assignResult s r c v) < gridMeasure s := by
  set c1 : Cell := { s.cellAt (r, c) with value := v, moves := Moves.empty } with hc1
  set s1 := s.setCellAt (r, c) c1 with hs1
  have hland : s1.cellAt (r, c) = c1 :=
    Sudoku.cellAt_setCellAt_self_of_moves_ne s (r, c) c1
      (Moves.moves_ne_zero_of_has hcan)
  have hcm : cellMeasure (s1.cellAt (r, c)) < cellMeasure (s.cellAt (r, c)) := by
    rw [hland, cellMeasure, cellMeasure, h0, if_pos rfl]
    have hz : c1.moves = 0 := rfl
    have hv : c1.value = v := rfl
    rw [hz, hv, if_neg (by omega), Moves.slice_zero]
    simp
  have hev1 : Evolves s s1 :=
    Evolves.setCellAt_general s (r, c) c1 (MSub.zero _) (fun hne => absurd h0 hne)
  have h1 : gridMeasure s1 < gridMeasure s :=
    Evolves.gridMeasure_lt hev1 (r, c) (mem_cellsPos.mpr ⟨by omega, by omega⟩) hcm
  have h2 : gridMeasure (assignResult s r c v) ≤ gridMeasure s1 := by
    rw [assignResult]
    exact Nat.le_trans (eliminateMove_evolves _ _ _).gridMeasure_le
      (Nat.le_trans (eliminateMove_evolves _ _ _).gridMeasure_le
        (eliminateMove_evolves _ _ _).gridMeasure_le)
  omega

theorem playMove_evolves (s : Sudoku) (row col value : Int) :
    Evolves s (s.PlayMove row col value).1 := by
  rcases playMove_shape s row col value with ⟨e, heq, -⟩ |
    ⟨r, c, v, -, -, -, -, -, -, -, h0, -, -, -, -, heq⟩
  · rw [heq]
    exact Evolves.rfl s
  · rw [heq]
    have := assignResult_evolves s r c v h0
    rcases hscan : contradictionScan (assignResult s r c v) with - | p
    · simpa [hscan] using this
    · simpa [hscan] using this

theorem playMove_fst_of_validation_error (s : Sudoku) (row col value : Int)
    (e : Err) (h : (s.PlayMove row col value).2 = some e)
    (hne : ∀ i j, e ≠ Err.noMovesLeft i j) :
    (s.PlayMove row col value).1 = s := by
  rcases playMove_shape s row col value with ⟨e', heq, -⟩ |
    ⟨r, c, v, -, -, -, -, -, -, -, -, -, -, -, -, heq⟩
  · rw [heq]
  · rw [heq] at h
    rcases hscan : contradictionScan (assignResult s r c v) with - | p
    · rw [hscan] at h
      cases h
    · rw [hscan] at h
      simp only [Option.some.injEq] at h
      exact absurd h.symm (hne p.1 p.2)

theorem playMove_snd_ne_fuel (s : Sudoku) (row col value : Int) (e : Err)
    (h : (s.PlayMove row col value).2 = some e) : e ≠ Err.outOfFuel := by
  rcases playMove_shape s row col value with ⟨e', heq, -, hfuel⟩ |
    ⟨r, c, v, -, -, -, -, -, -, -, -, -, -, -, -, heq⟩
  · rw [heq] at h
    simp only [Option.some.injEq] at h
    rw [h] at hfuel
    exact hfuel
  · rw [heq] at h
    rcases hscan : contradictionScan (assignResult s r c v) with - | p
    · rw [hscan] at h
      cases h
    · rw [hscan] at h
      simp only [Option.some.injEq] at h
      rw [← h]
      simp

theorem playMove_measure_lt_of_none (s : Sudoku) (row col value : Int)
    (h : (s.PlayMove row col value).2 = none) :
    gridMeasure (s.PlayMove row col value).1 < gridMeasure s := by
  rcases playMove_shape s row col value with ⟨e, heq, -⟩ |
    ⟨r, c, v, -, -, -, hr, hc, hv1, -, h0, -, -, -, hcan, heq⟩
  · rw [heq] at h
    cases h
  · rw [heq] at h ⊢
    rcases hscan : contradictionScan (assignResult s r c v) with - | p
    · show gridMeasure (assignResult s r c v) < gridMeasure s
      exact assignResult_measure_lt s r c v hr hv1 h0 hc hcan
    · rw [hscan] at h
      simp at h

/-! ### Subset facts about the position lists used by the passes -/

theorem mem_of_mem_excluding {ps other : List Pos} {p : Pos}
    (h : p ∈ excluding ps other) : p ∈ ps :=
  (List.mem_filter.1 h).1

theorem mem_of_mem_findMove {s : Sudoku} {ps : List Pos} {v : Nat} {p : Pos}
    (h : p ∈ findMove s ps v) : p ∈ ps :=
  (List.mem_filter.1 h).1

theorem canPlay_of_mem_findMove {s : Sudoku} {ps : List Pos} {v : Nat} {p : Pos}
    (h : p ∈ findMove s ps v) : Cell.CanPlay (s.cellAt p) v = true :=
  by simpa using (List.mem_filter.1 h).2

theorem mem_of_mem_unsetOnly {s : Sudoku} {ps : List Pos} {p : Pos}
    (h : p ∈ unsetOnly s ps) : p ∈ ps :=
  (List.mem_filter.1 h).1

theorem unset_of_mem_unsetOnly {s : Sudoku} {ps : List Pos} {p : Pos}
    (h : p ∈ unsetOnly s ps) : (s.cellAt p).value = 0 := by
  have := (List.mem_filter.1 h).2
  simpa using this

theorem rowPos_subset_cells {r : Nat} (hr : r ≤ 8) {p : Pos}
    (h : p ∈ rowPos r) : p ∈ cellsPos := by
  rw [mem_rowPos] at h
  rw [mem_cellsPos]
  omega

theorem colPos_subset_cells {c : Nat} (hc : c ≤ 8) {p : Pos}
    (h : p ∈ colPos c) : p ∈ cellsPos := by
  rw [mem_colPos] at h
  rw [mem_cellsPos]
  omega

theorem squarePos_subset_cells {i j : Nat} (hi : i ≤ 2) (hj : j ≤ 2) {p : Pos}
    (h : p ∈ squarePos i j) : p ∈ cellsPos := by
  rw [mem_squarePos] at h
  rw [mem_cellsPos]
  omega

theorem uniqueRows_headD_le (ps : List Pos) : (uniqueRows ps).headD 0 ≤ 8 := by
  cases h : uniqueRows ps with
  | nil => simp
  | cons a l =>
    have ha : a ∈ uniqueRows ps := by rw [h]; exact List.mem_cons_self a l
    have := (List.mem_filter.1 ha).1
    rw [List.mem_range] at this
    simp only [List.headD_cons]
    omega

theorem uniqueCols_headD_le (ps : List Pos) : (uniqueCols ps).headD 0 ≤ 8 := by
  cases h : uniqueCols ps with
  | nil => simp
  | cons a l =>
    have ha : a ∈ uniqueCols ps := by rw [h]; exact List.mem_cons_self a l
    have := (List.mem_filter.1 ha).1
    rw [List.mem_range] at this
    simp only [List.headD_cons]
    omega

theorem uniqueSquares_headD_le (vs : List Nat) : (uniqueSquares vs).headD 0 ≤ 2 := by
  cases h : uniqueSquares vs with
  | nil => simp
  | cons a l =>
    have ha : a ∈ uniqueSquares vs := by rw [h]; exact List.mem_cons_self a l
    have := (List.mem_filter.1 ha).1
    rw [List.mem_range] at this
    simp only [List.headD_cons]
    omega

theorem groupsPos_subset_cells {g : List Pos} (hg : g ∈ groupsPos) {p : Pos}
    (hp : p ∈ g) : p ∈ cellsPos := by
  rw [groupsPos, List.mem_append, List.mem_append] at hg
  rcases hg with (hg | hg) | hg
  · rw [rowsPos, List.mem_map] at hg
    rcases hg with ⟨r, hr, rfl⟩
    rw [List.mem_range] at hr
    exact rowPos_subset_cells (by omega) hp
  · rw [colsPos, List.mem_map] at hg
    rcases hg with ⟨c, hc, rfl⟩
    rw [List.mem_range] at hc
    exact colPos_subset_cells (by omega) hp
  · rw [squaresPos, List.mem_flatMap] at hg
    rcases hg with ⟨i, hi, hg⟩
    rw [List.mem_map] at hg
    rcases hg with ⟨j, hj, rfl⟩
    rw [List.mem_range] at hi
    rw [List.mem_range] at hj
    exact squarePos_subset_cells (by omega) (by omega) hp

theorem eliminateMove_count_pos (v : Nat) : ∀ (ps : List Pos) (s : Sudoku) (p : Pos),
    p ∈ ps → Moves.has ((s.cellAt p).moves) v = true →
    (eliminateMove v ps s).2 > 0 := by
  intro ps
  induction ps with
  | nil => intro s p hp; cases hp
  | cons q qs ih =>
    intro s p hp hhas
    rw [eliminateMove_fst_cons]
    cases hch : (Cell.elim (s.cellAt q) v).2 with
    | true => simp
    | false =>
      simp only [if_false]
      rcases List.mem_cons.1 hp with rfl | hmem
      · rw [Cell.elim_snd] at hch
        rw [hhas] at hch
        cases hch
      · by_cases hpq : p = q
        · subst hpq
          rw [Cell.elim_snd] at hch
          rw [hhas] at hch
          cases hch
        · refine ih _ p hmem ?_
          rw [Sudoku.cellAt_setCellAt_ne s q _ p hpq]
          exact hhas

/-! ### A uniform invariant for the deduction passes -/

/-- What every deduction pass guarantees: the grid evolves, the change counter
does not decrease, and when it increases the measure strictly drops. -/
def PassOK (s : Sudoku) (m : Nat) (out : Sudoku × Nat) : Prop :=
  Evolves s out.1 ∧ m ≤ out.2 ∧ (out.2 > m → gridMeasure out.1 < gridMeasure s)

theorem PassOK.pass_id (s : Sudoku) (m : Nat) : PassOK s m (s, m) :=
  ⟨Evolves.rfl s, Nat.le.refl, fun h => absurd h (Nat.lt_irrefl m)⟩

theorem PassOK.pass_comp {s t : Sudoku} {m n : Nat} {out : Sudoku × Nat}
    (h1 : PassOK s m (t, n)) (h2 : PassOK t n out) : PassOK s m out := by
  obtain ⟨e1, le1, lt1⟩ := h1
  obtain ⟨e2, le2, lt2⟩ := h2
  have e1' : Evolves s t := e1
  have lt1' : n > m → gridMeasure t < gridMeasure s := lt1
  have le1' : m ≤ n := le1
  refine ⟨Evolves.trans e1' e2, Nat.le_trans le1' le2, fun h => ?_⟩
  have hmle : gridMeasure t ≤ gridMeasure s := e1'.gridMeasure_le
  have hmle2 : gridMeasure out.1 ≤ gridMeasure t := e2.gridMeasure_le
  by_cases hn : out.2 > n
  · have := lt2 hn
    omega
  · have hnm : n > m := by omega
    have := lt1' hnm
    omega

theorem PassOK.elim_step {s : Sudoku} {m : Nat} (v : Nat) (ps : List Pos)
    (hv1 : 1 ≤ v) (hv2 : v < 10) (hps : ∀ p ∈ ps, p ∈ cellsPos) :
    PassOK s m
      ((eliminateMove v ps s).1,
        if (eliminateMove v ps s).2 > 0 then m + 1 else m) := by
  refine ⟨eliminateMove_evolves v ps s, ?_, ?_⟩
  · split <;> omega
  · intro h
    split at h
    · exact eliminateMove_measure_lt v hv1 (by omega) ps s hps (by assumption)
    · omega

theorem PassOK.elim_pos {s : Sudoku} {m : Nat} {v : Nat} {ps : List Pos}
    (hv1 : 1 ≤ v) (hv2 : v < 10) (hps : ∀ p ∈ ps, p ∈ cellsPos)
    (hpos : (eliminateMove v ps s).2 > 0) :
    PassOK s m ((eliminateMove v ps s).1, m + 1) := by
  refine ⟨eliminateMove_evolves v ps s, by omega, fun _ => ?_⟩
  exact eliminateMove_measure_lt v hv1 hv2 ps s hps hpos

theorem PassOK.elim_flat {s : Sudoku} {m : Nat} (v : Nat) (ps : List Pos) :
    PassOK s m ((eliminateMove v ps s).1, m) :=
  ⟨eliminateMove_evolves v ps s, Nat.le.refl, fun h => absurd h (Nat.lt_irrefl m)⟩

/-- `PassOK` together with the guarantee that an aborting error is a real
`PlayMove` error, never the fuel marker. -/
def PassEOK (s : Sudoku) (m : Nat) (out : PassOut) : Prop :=
  PassOK s m (out.1, out.2.1) ∧ ∀ e, out.2.2 = some e → e ≠ Err.outOfFuel

theorem PassEOK.id (s : Sudoku) (m : Nat) : PassEOK s m (s, m, none) :=
  ⟨PassOK.pass_id s m, fun e h => by cases h⟩

theorem PassEOK.comp {s t : Sudoku} {m n : Nat} {out : PassOut}
    (h1 : PassEOK s m (t, n, none)) (h2 : PassEOK t n out) : PassEOK s m out :=
  ⟨PassOK.pass_comp h1.1 h2.1, h2.2⟩

theorem PassOK.play_success {s s' : Sudoku} {m : Nat} {a b c : Int}
    (heq : s.PlayMove a b c = (s', none)) : PassOK s m (s', m + 1) := by
  refine ⟨?_, by omega, fun _ => ?_⟩
  · have h := playMove_evolves s a b c
    rw [heq] at h
    exact h
  · have h := playMove_measure_lt_of_none s a b c (by rw [heq])
    rw [heq] at h
    exact h

theorem PassEOK.play_err {s s' : Sudoku} {m : Nat} {a b c : Int} {e : Err}
    (heq : s.PlayMove a b c = (s', some e)) : PassEOK s m (s', m, some e) := by
  constructor
  · refine ⟨?_, Nat.le.refl, fun h => absurd h (Nat.lt_irrefl m)⟩
    have h := playMove_evolves s a b c
    rw [heq] at h
    exact h
  · intro e' he'
    have he : e = e' := by simpa using he'
    rw [← he]
    exact playMove_snd_ne_fuel s a b c e (by rw [heq])

theorem nakedLoop_ok : ∀ (ps : List Pos) (s : Sudoku) (m : Nat),
    PassEOK s m (nakedLoop ps s m) := by
  intro ps
  induction ps with
  | nil => intro s m; exact PassEOK.id s m
  | cons p ps ih =>
    intro s m
    simp only [nakedLoop]
    split
    · split
      next s' e heq => exact PassEOK.play_err heq
      next s' heq => exact PassEOK.comp ⟨PassOK.play_success heq, fun e h => by cases h⟩ (ih s' (m + 1))
    · exact ih s m

theorem hiddenValueLoop_ok (group : List Pos) : ∀ (vs : List Nat) (s : Sudoku) (m : Nat),
    PassEOK s m (hiddenValueLoop group vs s m) := by
  intro vs
  induction vs with
  | nil => intro s m; exact PassEOK.id s m
  | cons v vs ih =>
    intro s m
    simp only [hiddenValueLoop]
    split
    · split
      next s' e heq => exact PassEOK.play_err heq
      next s' heq => exact PassEOK.comp ⟨PassOK.play_success heq, fun e h => by cases h⟩ (ih s' (m + 1))
    · exact ih s m

theorem hiddenLoop_ok : ∀ (gs : List (List Pos)) (s : Sudoku) (m : Nat),
    PassEOK s m (hiddenLoop gs s m) := by
  intro gs
  induction gs with
  | nil => intro s m; exact PassEOK.id s m
  | cons g gs ih =>
    intro s m
    simp only [hiddenLoop]
    split
    next s' m' e heq =>
      have h := hiddenValueLoop_ok g (Moves.slice (remainingMoves s g)) s m
      rw [heq] at h
      exact h
    next s' m' heq =>
      have h := hiddenValueLoop_ok g (Moves.slice (remainingMoves s g)) s m
      rw [heq] at h
      exact PassEOK.comp h (ih s' m')

theorem headD_fst_le (ps : List Pos) (h : ∀ p ∈ ps, p.1 ≤ 8) :
    (ps.headD (0, 0)).1 ≤ 8 := by
  cases ps with
  | nil => simp
  | cons a l => exact h a (List.mem_cons_self a l)

theorem headD_snd_le (ps : List Pos) (h : ∀ p ∈ ps, p.2 ≤ 8) :
    (ps.headD (0, 0)).2 ≤ 8 := by
  cases ps with
  | nil => simp
  | cons a l => exact h a (List.mem_cons_self a l)

theorem headD_le_of_mem_range (l : List Nat) (n : Nat) (hn : 0 < n)
    (h : ∀ x ∈ l, x < n) : l.headD 0 ≤ n - 1 := by
  cases l with
  | nil => simp
  | cons a l =>
    have := h a (List.mem_cons_self a l)
    simp only [List.headD_cons]
    omega

theorem boxElimValueLoop_ok (sq : List Pos) : ∀ (vs : List Nat) (s : Sudoku) (m : Nat),
    (∀ v ∈ vs, 1 ≤ v ∧ v < 10) →
    PassOK s m (boxElimValueLoop sq vs s m) := by
  intro vs
  induction vs with
  | nil => intro s m _; exact PassOK.pass_id s m
  | cons v vs ih =>
    intro s m hv
    have hv1 := (hv v (List.mem_cons_self v vs)).1
    have hv2 := (hv v (List.mem_cons_self v vs)).2
    have hvs := fun w hw => hv w (List.mem_cons_of_mem _ hw)
    simp only [boxElimValueLoop]
    have hrowmem : ∀ r' : Nat, r' ≤ 8 →
        ∀ p ∈ excluding (rowPos r') sq, p ∈ cellsPos := fun r' hr' p hp =>
      rowPos_subset_cells hr' (mem_of_mem_excluding hp)
    have hcolmem : ∀ c' : Nat, c' ≤ 8 →
        ∀ p ∈ excluding (colPos c') sq, p ∈ cellsPos := fun c' hc' p hp =>
      colPos_subset_cells hc' (mem_of_mem_excluding hp)
    have step1 : PassOK s m
        (if (uniqueRows (findMove s sq v)).length == 1 then
          (if (eliminateMove v (excluding (rowPos ((uniqueRows (findMove s sq v)).headD 0)) sq) s).2 > 0 then
            ((eliminateMove v (excluding (rowPos ((uniqueRows (findMove s sq v)).headD 0)) sq) s).1, m + 1)
          else
            ((eliminateMove v (excluding (rowPos ((uniqueRows (findMove s sq v)).headD 0)) sq) s).1, m))
        else (s, m)) := by
      split
      · split
        next hpos =>
          exact PassOK.elim_pos hv1 hv2
            (hrowmem _ (uniqueRows_headD_le _)) hpos
        next hpos => exact PassOK.elim_flat v _
      · exact PassOK.pass_id s m
    refine PassOK.pass_comp step1 ?_
    set sm1 := (if (uniqueRows (findMove s sq v)).length == 1 then
          (if (eliminateMove v (excluding (rowPos ((uniqueRows (findMove s sq v)).headD 0)) sq) s).2 > 0 then
            ((eliminateMove v (excluding (rowPos ((uniqueRows (findMove s sq v)).headD 0)) sq) s).1, m + 1)
          else
            ((eliminateMove v (excluding (rowPos ((uniqueRows (findMove s sq v)).headD 0)) sq) s).1, m))
        else (s, m)) with hsm1
    have step2 : PassOK sm1.1 sm1.2
        (if (uniqueCols (findMove s sq v)).length == 1 then
          (if (eliminateMove v (excluding (colPos ((uniqueCols (findMove s sq v)).headD 0)) sq) sm1.1).2 > 0 then
            ((eliminateMove v (excluding (colPos ((uniqueCols (findMove s sq v)).headD 0)) sq) sm1.1).1, sm1.2 + 1)
          else
            ((eliminateMove v (excluding (colPos ((uniqueCols (findMove s sq v)).headD 0)) sq) sm1.1).1, sm1.2))
        else (sm1.1, sm1.2)) := by
      split
      · split
        next hpos =>
          exact PassOK.elim_pos hv1 hv2
            (hcolmem _ (uniqueCols_headD_le _)) hpos
        next hpos => exact PassOK.elim_flat v _
      · exact PassOK.pass_id sm1.1 sm1.2
    refine PassOK.pass_comp ?_ (ih _ _ hvs)
    exact step2

theorem boxElimLoop_ok : ∀ (sqs : List (List Pos)) (s : Sudoku) (m : Nat),
    PassOK s m (boxElimLoop sqs s m) := by
  intro sqs
  induction sqs with
  | nil => intro s m; exact PassOK.pass_id s m
  | cons sq sqs ih =>
    intro s m
    simp only [boxElimLoop]
    have h1 := boxElimValueLoop_ok sq (Moves.slice (remainingMoves s sq)) s m
      (fun v hv => by
        rcases Moves.mem_slice.1 hv with ⟨a, b, -⟩
        exact ⟨a, b⟩)
    rcases hr : boxElimValueLoop sq (Moves.slice (remainingMoves s sq)) s m with ⟨s', m'⟩
    rw [hr] at h1
    exact PassOK.pass_comp h1 (ih s' m')

theorem lineElimRowValueLoop_ok (row : List Pos) (hrow : ∀ p ∈ row, p.1 ≤ 8) :
    ∀ (vs : List Nat) (s : Sudoku) (m : Nat),
    (∀ v ∈ vs, 1 ≤ v ∧ v < 10) →
    PassOK s m (lineElimRowValueLoop row vs s m) := by
  intro vs
  induction vs with
  | nil => intro s m _; exact PassOK.pass_id s m
  | cons v vs ih =>
    intro s m hv
    have hv1 := (hv v (List.mem_cons_self v vs)).1
    have hv2 := (hv v (List.mem_cons_self v vs)).2
    have hvs := fun w hw => hv w (List.mem_cons_of_mem _ hw)
    simp only [lineElimRowValueLoop]
    split
    · refine PassOK.pass_comp ?_ (ih _ _ hvs)
      have hsqr : (row.headD (0, 0)).1 / 3 ≤ 2 := by
        have := headD_fst_le row hrow
        omega
      have hsqc : (uniqueSquares (uniqueCols (findMove s row v))).headD 0 ≤ 2 :=
        uniqueSquares_headD_le _
      refine ⟨eliminateMove_evolves _ _ _, by split <;> omega, fun h => ?_⟩
      split at h
      · refine eliminateMove_measure_lt v hv1 hv2 _ s (fun p hp => ?_) (by assumption)
        exact squarePos_subset_cells hsqr hsqc (mem_of_mem_excluding hp)
      · omega
    · exact ih s m hvs

theorem lineElimRowLoop_ok : ∀ (gs : List (List Pos)),
    (∀ g ∈ gs, ∀ p ∈ g, p.1 ≤ 8) → ∀ (s : Sudoku) (m : Nat),
    PassOK s m (lineElimRowLoop gs s m) := by
  intro gs
  induction gs with
  | nil => intro _ s m; exact PassOK.pass_id s m
  | cons g gs ih =>
    intro hgs s m
    simp only [lineElimRowLoop]
    have h1 := lineElimRowValueLoop_ok g (hgs g (List.mem_cons_self g gs))
      (Moves.slice (remainingMoves s g)) s m
      (fun v hv => by
        rcases Moves.mem_slice.1 hv with ⟨a, b, -⟩
        exact ⟨a, b⟩)
    rcases hr : lineElimRowValueLoop g (Moves.slice (remainingMoves s g)) s m with ⟨s', m'⟩
    rw [hr] at h1
    exact PassOK.pass_comp h1 (ih (fun g' hg' => hgs g' (List.mem_cons_of_mem _ hg')) s' m')

theorem lineElimColValueLoop_ok (col : List Pos) (hcol : ∀ p ∈ col, p.2 ≤ 8) :
    ∀ (vs : List Nat) (s : Sudoku) (m : Nat),
    (∀ v ∈ vs, 1 ≤ v ∧ v < 10) →
    PassOK s m (lineElimColValueLoop col vs s m) := by
  intro vs
  induction vs with
  | nil => intro s m _; exact PassOK.pass_id s m
  | cons v vs ih =>
    intro s m hv
    have hv1 := (hv v (List.mem_cons_self v vs)).1
    have hv2 := (hv v (List.mem_cons_self v vs)).2
    have hvs := fun w hw => hv w (List.mem_cons_of_mem _ hw)
    simp only [lineElimColValueLoop]
    split
    · refine PassOK.pass_comp ?_ (ih _ _ hvs)
      have hsqc : (col.headD (0, 0)).2 / 3 ≤ 2 := by
        have := headD_snd_le col hcol
        omega
      have hsqr : (uniqueSquares (uniqueRows (findMove s col v))).headD 0 ≤ 2 :=
        uniqueSquares_headD_le _
      refine ⟨eliminateMove_evolves _ _ _, by split <;> omega, fun h => ?_⟩
      split at h
      · refine eliminateMove_measure_lt v hv1 hv2 _ s (fun p hp => ?_) (by assumption)
        exact squarePos_subset_cells hsqr hsqc (mem_of_mem_excluding hp)
      · omega
    · exact ih s m hvs

theorem lineElimColLoop_ok : ∀ (gs : List (List Pos)),
    (∀ g ∈ gs, ∀ p ∈ g, p.2 ≤ 8) → ∀ (s : Sudoku) (m : Nat),
    PassOK s m (lineElimColLoop gs s m) := by
  intro gs
  induction gs with
  | nil => intro _ s m; exact PassOK.pass_id s m
  | cons g gs ih =>
    intro hgs s m
    simp only [lineElimColLoop]
    have h1 := lineElimColValueLoop_ok g (hgs g (List.mem_cons_self g gs))
      (Moves.slice (remainingMoves s g)) s m
      (fun v hv => by
        rcases Moves.mem_slice.1 hv with ⟨a, b, -⟩
        exact ⟨a, b⟩)
    rcases hr : lineElimColValueLoop g (Moves.slice (remainingMoves s g)) s m with ⟨s', m'⟩
    rw [hr] at h1
    exact PassOK.pass_comp h1 (ih (fun g' hg' => hgs g' (List.mem_cons_of_mem _ hg')) s' m')

theorem subsetValueLoop_ok (other : List Pos) (hother : ∀ p ∈ other, p ∈ cellsPos) :
    ∀ (vs : List Nat) (s : Sudoku) (m : Nat),
    (∀ v ∈ vs, 1 ≤ v ∧ v < 10) →
    PassOK s m (subsetValueLoop other vs s m) := by
  intro vs
  induction vs with
  | nil => intro s m _; exact PassOK.pass_id s m
  | cons v vs ih =>
    intro s m hv
    have hv1 := (hv v (List.mem_cons_self v vs)).1
    have hv2 := (hv v (List.mem_cons_self v vs)).2
    have hvs := fun w hw => hv w (List.mem_cons_of_mem _ hw)
    simp only [subsetValueLoop]
    split
    next hpos =>
      refine PassOK.pass_comp ?_ (ih _ _ hvs)
      have hne : findMove s other v ≠ [] := by
        intro hnil
        rw [hnil] at hpos
        simp at hpos
      rcases List.exists_mem_of_ne_nil _ hne with ⟨q, hq⟩
      have hcount : (eliminateMove v (findMove s other v) s).2 > 0 :=
        eliminateMove_count_pos v _ s q hq (canPlay_of_mem_findMove hq)
      exact PassOK.elim_pos hv1 hv2
        (fun p hp => hother p (mem_of_mem_findMove hp)) hcount
    next hpos => exact ih s m hvs

/-- The skip guard of the subset pass: subsets smaller than 2 or as large as
the whole unset group leave grid and counter untouched. -/
theorem subsetApply_skip (gU sub : List Pos) (s : Sudoku) (m : Nat)
    (h : sub.length < 2 ∨ sub.length = gU.length) :
    subsetApply gU sub s m = (s, m) := by
  rw [subsetApply, if_pos]
  rcases h with h | h
  · exact Or.inl h
  · exact Or.inr (by simpa using h)

/-- A subset whose candidate-union cardinality differs from its size leaves
grid and counter untouched. -/
theorem subsetApply_nontrigger (gU sub : List Pos) (s : Sudoku) (m : Nat)
    (h1 : ¬ (sub.length < 2 ∨ sub.length = gU.length))
    (h2 : sub.length ≠ (Moves.slice (remainingMoves s sub)).length) :
    subsetApply gU sub s m = (s, m) := by
  rw [subsetApply, if_neg (by simpa using h1)]
  show (if (sub.length == (Moves.slice (remainingMoves s sub)).length) = true then
      subsetValueLoop (excluding gU sub) (Moves.slice (remainingMoves s sub)) s m
    else (s, m)) = (s, m)
  rw [if_neg (by simpa using h2)]

/-- A qualifying subset (size 2 to unset-count−1, union cardinality equal to
its size) runs the elimination value loop over the other cells. -/
theorem subsetApply_trigger (gU sub : List Pos) (s : Sudoku) (m : Nat)
    (h1 : ¬ (sub.length < 2 ∨ sub.length = gU.length))
    (h2 : sub.length = (Moves.slice (remainingMoves s sub)).length) :
    subsetApply gU sub s m =
      subsetValueLoop (excluding gU sub) (Moves.slice (remainingMoves s sub)) s m := by
  rw [subsetApply, if_neg (by simpa using h1)]
  show (if (sub.length == (Moves.slice (remainingMoves s sub)).length) = true then
      subsetValueLoop (excluding gU sub) (Moves.slice (remainingMoves s sub)) s m
    else (s, m)) = _
  rw [if_pos (by simpa using h2)]

theorem subsetApply_ok (gU sub : List Pos) (hgU : ∀ p ∈ gU, p ∈ cellsPos)
    (s : Sudoku) (m : Nat) : PassOK s m (subsetApply gU sub s m) := by
  by_cases h1 : sub.length < 2 ∨ sub.length = gU.length
  · rw [subsetApply_skip gU sub s m h1]
    exact PassOK.pass_id s m
  · by_cases h2 : sub.length = (Moves.slice (remainingMoves s sub)).length
    · rw [subsetApply_trigger gU sub s m h1 h2]
      refine subsetValueLoop_ok _ (fun p hp => hgU p (mem_of_mem_excluding hp)) _ s m
        (fun v hv => ?_)
      rcases Moves.mem_slice.1 hv with ⟨a, b, -⟩
      exact ⟨a, b⟩
    · rw [subsetApply_nontrigger gU sub s m h1 h2]
      exact PassOK.pass_id s m

theorem subsetLoop_ok (gU : List Pos) (hgU : ∀ p ∈ gU, p ∈ cellsPos) :
    ∀ (subs : List (List Pos)) (s : Sudoku) (m : Nat),
    PassOK s m (subsetLoop gU subs s m) := by
  intro subs
  induction subs with
  | nil => intro s m; exact PassOK.pass_id s m
  | cons sub subs ih =>
    intro s m
    simp only [subsetLoop]
    have h1 := subsetApply_ok gU sub hgU s m
    rcases hr : subsetApply gU sub s m with ⟨s', m'⟩
    rw [hr] at h1
    exact PassOK.pass_comp h1 (ih s' m')

theorem subsetGroupLoop_ok : ∀ (gs : List (List Pos)),
    (∀ g ∈ gs, ∀ p ∈ g, p ∈ cellsPos) → ∀ (s : Sudoku) (m : Nat),
    PassOK s m (subsetGroupLoop gs s m) := by
  intro gs
  induction gs with
  | nil => intro _ s m; exact PassOK.pass_id s m
  | cons g gs ih =>
    intro hgs s m
    simp only [subsetGroupLoop]
    have hsub : ∀ p ∈ unsetOnly s g, p ∈ cellsPos := fun p hp =>
      hgs g (List.mem_cons_self g gs) p (mem_of_mem_unsetOnly hp)
    have h1 := subsetLoop_ok (unsetOnly s g) hsub (powerSet (unsetOnly s g)) s m
    rcases hr : subsetLoop (unsetOnly s g) (powerSet (unsetOnly s g)) s m with ⟨s', m'⟩
    rw [hr] at h1
    exact PassOK.pass_comp h1 (ih (fun g' hg' => hgs g' (List.mem_cons_of_mem _ hg')) s' m')

theorem subsetGroupLoop_groups_ok (s : Sudoku) (m : Nat) :
    PassOK s m (subsetGroupLoop groupsPos s m) :=
  subsetGroupLoop_ok groupsPos (fun _ hg _ hp => groupsPos_subset_cells hg hp) s m

theorem passThen_err {s : Sudoku} {m : Nat} {e : Err} (k : Sudoku → Nat → PassOut) :
    passThen (s, m, some e) k = (s, m, some e) := rfl

theorem passThen_none {s : Sudoku} {m : Nat} (k : Sudoku → Nat → PassOut) :
    passThen (s, m, none) k = k s m := rfl

theorem deductionSweep_ok (s : Sudoku) : PassEOK s 0 (deductionSweep s) := by
  rw [deductionSweep]
  have h1 := nakedLoop_ok cellsPos s 0
  rcases hn : nakedLoop cellsPos s 0 with ⟨s1, m1, oe1⟩
  rw [hn] at h1
  cases oe1 with
  | some e => rw [passThen_err]; exact h1
  | none =>
    rw [passThen_none]
    have h2 := hiddenLoop_ok squaresPos s1 m1
    rcases hh2 : hiddenLoop squaresPos s1 m1 with ⟨s2, m2, oe2⟩
    rw [hh2] at h2
    cases oe2 with
    | some e => rw [passThen_err]; exact PassEOK.comp h1 h2
    | none =>
      rw [passThen_none]
      have h3 := hiddenLoop_ok rowsPos s2 m2
      rcases hh3 : hiddenLoop rowsPos s2 m2 with ⟨s3, m3, oe3⟩
      rw [hh3] at h3
      cases oe3 with
      | some e => rw [passThen_err]; exact PassEOK.comp h1 (PassEOK.comp h2 h3)
      | none =>
        rw [passThen_none]
        have h4 := hiddenLoop_ok colsPos s3 m3
        rcases hh4 : hiddenLoop colsPos s3 m3 with ⟨s4, m4, oe4⟩
        rw [hh4] at h4
        cases oe4 with
        | some e =>
          rw [passThen_err]
          exact PassEOK.comp h1 (PassEOK.comp h2 (PassEOK.comp h3 h4))
        | none =>
          rw [passThen_none]
          have h5 := boxElimLoop_ok squaresPos s4 m4
          rcases hh5 : boxElimLoop squaresPos s4 m4 with ⟨s5, m5⟩
          rw [hh5] at h5
          have h6 := lineElimRowLoop_ok rowsPos
            (fun g hg p hp => by
              rw [rowsPos, List.mem_map] at hg
              rcases hg with ⟨r, hr, rfl⟩
              rw [List.mem_range] at hr
              rw [mem_rowPos] at hp
              omega) s5 m5
          rcases hh6 : lineElimRowLoop rowsPos s5 m5 with ⟨s6, m6⟩
          rw [hh6] at h6
          have h7 := lineElimColLoop_ok colsPos
            (fun g hg p hp => by
              rw [colsPos, List.mem_map] at hg
              rcases hg with ⟨c, hc, rfl⟩
              rw [List.mem_range] at hc
              rw [mem_colPos] at hp
              omega) s6 m6
          rcases hh7 : lineElimColLoop colsPos s6 m6 with ⟨s7, m7⟩
          rw [hh7] at h7
          simp only [hh5, hh6, hh7]
          refine ⟨?_, fun e h => by cases h⟩
          exact PassOK.pass_comp h1.1 (PassOK.pass_comp h2.1 (PassOK.pass_comp h3.1
            (PassOK.pass_comp h4.1 (PassOK.pass_comp h5 (PassOK.pass_comp h6 h7)))))

/-! ### Solve: evolution and termination -/

theorem solve_evolves : ∀ (fuel : Nat) (s : Sudoku), Evolves s (Solve fuel s).1 := by
  intro fuel
  induction fuel with
  | zero => intro s; exact Evolves.rfl s
  | succ fuel ih =>
    intro s
    rw [Solve]
    have hd := deductionSweep_ok s
    rcases hds : deductionSweep s with ⟨s', m', oe⟩
    rw [hds] at hd
    have hev : Evolves s s' := hd.1.1
    cases oe with
    | some e => simpa using hev
    | none =>
      simp only []
      split
      · exact hev
      · split
        · exact Evolves.trans hev (ih s')
        · have hsub := subsetGroupLoop_groups_ok s' m'
          rcases hr : subsetGroupLoop groupsPos s' m' with ⟨r1, r2⟩
          rw [hr] at hsub
          have hev2 : Evolves s' r1 := hsub.1
          split
          · exact Evolves.trans hev (Evolves.trans hev2 (ih _))
          · exact Evolves.trans hev hev2

theorem solve_no_outOfFuel : ∀ (fuel : Nat) (s : Sudoku), gridMeasure s < fuel →
    (Solve fuel s).2 ≠ some Err.outOfFuel := by
  intro fuel
  induction fuel with
  | zero => intro s h; omega
  | succ fuel ih =>
    intro s hm
    rw [Solve]
    have hd := deductionSweep_ok s
    rcases hds : deductionSweep s with ⟨s', m', oe⟩
    rw [hds] at hd
    cases oe with
    | some e =>
      simp only []
      intro hcontra
      simp only [Option.some.injEq] at hcontra
      exact hd.2 e rfl hcontra
    | none =>
      simp only []
      split
      · simp
      · split
        next hpos =>
          have hlt : gridMeasure s' < gridMeasure s := hd.1.2.2 (by simpa using hpos)
          exact ih s' (by omega)
        next hpos =>
          have hle : gridMeasure s' ≤ gridMeasure s := hd.1.1.gridMeasure_le
          have hm0 : m' = 0 := by omega
          have hsub := subsetGroupLoop_groups_ok s' m'
          rcases hr : subsetGroupLoop groupsPos s' m' with ⟨r1, r2⟩
          rw [hr] at hsub
          split
          next hpos2 =>
            have hp2 : r2 > 0 := by simpa using hpos2
            have hlt2 : gridMeasure r1 < gridMeasure s' := hsub.2.2 (by omega)
            exact ih r1 (by omega)
          next hpos2 => simp

/-! ### Operation sequences: evolution and monotone candidates -/

theorem applyOp_evolves (s : Sudoku) (op : Op) : Evolves s (applyOp s op) := by
  cases op with
  | play row col value => exact playMove_evolves s row col value
  | eliminate v ps => exact eliminateMove_evolves v ps s
  | sweep => exact (deductionSweep_ok s).1.1
  | subset => exact (subsetGroupLoop_groups_ok s 0).1
  | solve fuel => exact solve_evolves fuel s

theorem runOps_evolves : ∀ (ops : List Op) (s : Sudoku), Evolves s (runOps s ops) := by
  intro ops
  induction ops with
  | nil => intro s; exact Evolves.rfl s
  | cons op ops ih =>
    intro s
    exact Evolves.trans (applyOp_evolves s op) (ih (applyOp s op))

/-! ### Clearing lemmas: subset exclusion and assignment -/

theorem subsetValueLoop_evolves (other : List Pos) : ∀ (vs : List Nat) (s : Sudoku) (m : Nat),
    Evolves s (subsetValueLoop other vs s m).1 := by
  intro vs
  induction vs with
  | nil => intro s m; exact Evolves.rfl s
  | cons v vs ih =>
    intro s m
    simp only [subsetValueLoop]
    split
    · exact Evolves.trans (eliminateMove_evolves v (findMove s other v) s) (ih _ _)
    · exact ih s m

theorem subsetValueLoop_clears (other : List Pos) : ∀ (vs : List Nat) (s : Sudoku) (m : Nat),
    ∀ v ∈ vs, ∀ q ∈ other,
    Moves.has ((((subsetValueLoop other vs s m).1).cellAt q).moves) v = false := by
  intro vs
  induction vs with
  | nil => intro s m v hv; cases hv
  | cons w ws ih =>
    intro s m v hv q hq
    simp only [subsetValueLoop]
    split
    next hpos =>
      rcases List.mem_cons.1 hv with rfl | hmem
      · have hafter : Moves.has
            ((((eliminateMove v (findMove s other v) s).1).cellAt q).moves) v = false := by
          by_cases hqf : q ∈ findMove s other v
          · exact eliminateMove_clears v _ s q hqf
          · have hno : Moves.has ((s.cellAt q).moves) v = false := by
              by_contra hcon
              exact hqf (List.mem_filter.2 ⟨hq, by simpa [Cell.CanPlay] using hcon⟩)
            exact MSub.has_false ((eliminateMove_evolves v (findMove s other v) s q).1) hno
        exact MSub.has_false ((subsetValueLoop_evolves other ws _ _ q).1) hafter
      · exact ih _ _ v hmem q hq
    next hpos =>
      rcases List.mem_cons.1 hv with rfl | hmem
      · have hno : Moves.has ((s.cellAt q).moves) v = false := by
          by_contra hcon
          have hmm : q ∈ findMove s other v :=
            List.mem_filter.2 ⟨hq, by simpa [Cell.CanPlay] using hcon⟩
          have hlen : 0 < (findMove s other v).length := List.length_pos.2 (by
            intro hnil
            rw [hnil] at hmm
            cases hmm)
          exact hpos hlen
        exact MSub.has_false ((subsetValueLoop_evolves other ws s m q).1) hno
      · exact ih s m v hmem q hq

theorem MSub.eq_zero {a : Moves} (h : MSub a 0) : a = 0 := by
  refine Nat.eq_of_testBit_eq fun i => ?_
  rw [Nat.zero_testBit]
  by_contra hcon
  have hb : a.testBit i = true := by simpa using hcon
  have hz := h i hb
  rw [Nat.zero_testBit] at hz
  cases hz

theorem assignResult_target (s : Sudoku) (r c v : Nat) (hv : 1 ≤ v)
    (hmne : (s.cellAt (r, c)).moves ≠ 0) :
    ((assignResult s r c v).cellAt (r, c)).value = v ∧
    ((assignResult s r c v).cellAt (r, c)).moves = 0 := by
  have hland : (s.setCellAt (r, c)
        { s.cellAt (r, c) with value := v, moves := Moves.empty }).cellAt (r, c)
      = { s.cellAt (r, c) with value := v, moves := Moves.empty } :=
    Sudoku.cellAt_setCellAt_self_of_moves_ne s (r, c) _ hmne
  have hev : Evolves
      (s.setCellAt (r, c) { s.cellAt (r, c) with value := v, moves := Moves.empty })
      (assignResult s r c v) :=
    Evolves.trans (eliminateMove_evolves v (rowPos r) _)
      (Evolves.trans (eliminateMove_evolves v (colPos c) _)
        (eliminateMove_evolves v (squarePos (r / 3) (c / 3)) _))
  constructor
  · have hvv := (hev (r, c)).2 (by rw [hland]; show v ≠ 0; omega)
    rw [hvv, hland]
  · have h1 := (hev (r, c)).1
    rw [hland] at h1
    exact MSub.eq_zero h1

theorem assignResult_clears (s : Sudoku) (r c v : Nat) :
    (∀ q ∈ rowPos r, Moves.has (((assignResult s r c v).cellAt q).moves) v = false) ∧
    (∀ q ∈ colPos c, Moves.has (((assignResult s r c v).cellAt q).moves) v = false) ∧
    (∀ q ∈ squarePos (r / 3) (c / 3),
      Moves.has (((assignResult s r c v).cellAt q).moves) v = false) := by
  simp only [assignResult]
  set s1 := s.setCellAt (r, c) { s.cellAt (r, c) with value := v, moves := Moves.empty }
    with hs1
  set s2 := (eliminateMove v (rowPos r) s1).1 with hs2
  set s3 := (eliminateMove v (colPos c) s2).1 with hs3
  refine ⟨fun q hq => ?_, fun q hq => ?_, fun q hq => ?_⟩
  · have h2 := eliminateMove_clears v (rowPos r) s1 q hq
    exact MSub.has_false
      ((Evolves.trans (eliminateMove_evolves v (colPos c) s2)
        (eliminateMove_evolves v (squarePos (r / 3) (c / 3)) s3) q).1) h2
  · have h2 := eliminateMove_clears v (colPos c) s2 q hq
    exact MSub.has_false ((eliminateMove_evolves v (squarePos (r / 3) (c / 3)) s3 q).1) h2
  · exact eliminateMove_clears v (squarePos (r / 3) (c / 3)) s3 q hq

/-! ### A closed form for a fully validated PlayMove -/

theorem playMove_success_eq (s : Sudoku) (r c v : Nat)
    (hr : r < 9) (hc : c < 9) (hv1 : 1 ≤ v) (hv2 : v ≤ 9)
    (h0 : (s.cellAt (r, c)).value = 0)
    (hrow : Moves.has (remainingMoves s (rowPos r)) v = true)
    (hcol : Moves.has (remainingMoves s (colPos c)) v = true)
    (hsq : Moves.has (remainingMoves s (squarePos (r / 3) (c / 3))) v = true)
    (hcan : Cell.CanPlay (s.cellAt (r, c)) v = true) :
    s.PlayMove r c v =
      (assignResult s r c v,
        match contradictionScan (assignResult s r c v) with
        | some p => some (Err.noMovesLeft p.1 p.2)
        | none => none) := by
  rw [Sudoku.PlayMove]
  rw [if_neg (by omega), if_neg (by omega), if_neg (by omega)]
  simp only [Int.toNat_natCast]
  rw [if_neg (by simp [h0]), if_neg (by simp [hrow]), if_neg (by simp [hcol]),
    if_neg (by simp [hsq]), if_neg (by simp [hcan])]
  rw [Cell.Set, if_neg (by omega), if_neg (by simp [h0])]
  simp only [assignResult, Int.toNat_natCast]
  split
  next p hp => rfl
  next hp => rfl

/-! ### The example puzzle of claim C6 admits no solution -/

theorem cluesC6_unsat (sol : Pos → Nat) : ¬ IsSolution cluesC6 sol := by
  rintro ⟨hrange, hclue, hgroup⟩
  have h10 : sol (1, 0) = 9 := by
    have h := hclue (1, 0) (by decide) (by decide)
    rw [show clueAt cluesC6 (1, 0) = 9 from by decide] at h
    omega
  have h2 : sol (0, 2) = 1 := by
    have h := hclue (0, 2) (by decide) (by decide)
    rw [show clueAt cluesC6 (0, 2) = 1 from by decide] at h
    omega
  have h3 : sol (0, 3) = 2 := by
    have h := hclue (0, 3) (by decide) (by decide)
    rw [show clueAt cluesC6 (0, 3) = 2 from by decide] at h
    omega
  have h4 : sol (0, 4) = 3 := by
    have h := hclue (0, 4) (by decide) (by decide)
    rw [show clueAt cluesC6 (0, 4) = 3 from by decide] at h
    omega
  have h5 : sol (0, 5) = 4 := by
    have h := hclue (0, 5) (by decide) (by decide)
    rw [show clueAt cluesC6 (0, 5) = 4 from by decide] at h
    omega
  have h6 : sol (0, 6) = 6 := by
    have h := hclue (0, 6) (by decide) (by decide)
    rw [show clueAt cluesC6 (0, 6) = 6 from by decide] at h
    omega
  have h7 : sol (0, 7) = 7 := by
    have h := hclue (0, 7) (by decide) (by decide)
    rw [show clueAt cluesC6 (0, 7) = 7 from by decide] at h
    omega
  have h8 : sol (0, 8) = 8 := by
    have h := hclue (0, 8) (by decide) (by decide)
    rw [show clueAt cluesC6 (0, 8) = 8 from by decide] at h
    omega
  have hrowg : rowPos 0 ∈ groupsPos := by decide
  have hsqg : squarePos 0 0 ∈ groupsPos := by decide
  have hd : ∀ j : Nat, j ≤ 8 → ∀ k : Nat, k ≤ 8 → j ≠ k → sol (0, j) ≠ sol (0, k) := by
    intro j hj k hk hjk
    exact hgroup (rowPos 0) hrowg (0, j) (mem_rowPos.2 ⟨rfl, hj⟩)
      (0, k) (mem_rowPos.2 ⟨rfl, hk⟩) (by simpa using hjk)
  have hne9a : sol (0, 0) ≠ 9 := by
    have h := hgroup (squarePos 0 0) hsqg (0, 0) (by decide) (1, 0) (by decide) (by decide)
    rw [h10] at h
    exact h
  have hne9b : sol (0, 1) ≠ 9 := by
    have h := hgroup (squarePos 0 0) hsqg (0, 1) (by decide) (1, 0) (by decide) (by decide)
    rw [h10] at h
    exact h
  have hr00 := hrange (0, 0) (by decide)
  have hr01 := hrange (0, 1) (by decide)
  have ha : sol (0, 0) = 5 := by
    have n2 := hd 0 (by omega) 2 (by omega) (by omega)
    have n3 := hd 0 (by omega) 3 (by omega) (by omega)
    have n4 := hd 0 (by omega) 4 (by omega) (by omega)
    have n5 := hd 0 (by omega) 5 (by omega) (by omega)
    have n6 := hd 0 (by omega) 6 (by omega) (by omega)
    have n7 := hd 0 (by omega) 7 (by omega) (by omega)
    have n8 := hd 0 (by omega) 8 (by omega) (by omega)
    rw [h2] at n2
    rw [h3] at n3
    rw [h4] at n4
    rw [h5] at n5
    rw [h6] at n6
    rw [h7] at n7
    rw [h8] at n8
    omega
  have hb : sol (0, 1) = 5 := by
    have n2 := hd 1 (by omega) 2 (by omega) (by omega)
    have n3 := hd 1 (by omega) 3 (by omega) (by omega)
    have n4 := hd 1 (by omega) 4 (by omega) (by omega)
    have n5 := hd 1 (by omega) 5 (by omega) (by omega)
    have n6 := hd 1 (by omega) 6 (by omega) (by omega)
    have n7 := hd 1 (by omega) 7 (by omega) (by omega)
    have n8 := hd 1 (by omega) 8 (by omega) (by omega)
    rw [h2] at n2
    rw [h3] at n3
    rw [h4] at n4
    rw [h5] at n5
    rw [h6] at n6
    rw [h7] at n7
    rw [h8] at n8
    omega
  exact hd 0 (by omega) 1 (by omega) (by omega) (ha.trans hb.symm)

/-! ### Evaluated facts about the concrete grids, each computed once -/

theorem deductionSweep_gridC1 : deductionSweep gridC1 = (gridC1, 0, none) := by decide

theorem subsetGroupLoop_gridC1 : subsetGroupLoop groupsPos gridC1 0 = (gridC1, 0) := by
  decide

theorem deductionSweep_gridC2 : deductionSweep gridC2 = (gridC2s, 7, none) := by decide

theorem assignResult_initial : assignResult initialSudoku 0 0 5 = gridC3 := by decide

/-! ### The claims -/

/-- C1 (amended): the guessing block of `Solve` is commented out, so there is
no speculative search at all.  When a four-technique sweep aborts with no
error, makes zero changes and leaves unset cells, and the subset-exclusion
pass also makes zero changes, `Solve` fails with `noSolution` at once — it
never selects an unset cell, clones the grid or tries candidate assignments.
The original claim is refuted by `claim_C1_counterexample`. -/
theorem claim_C1 (fuel : Nat) (s : Sudoku)
    (h1 : (deductionSweep s).2.2 = none)
    (h2 : (unsetOnly (deductionSweep s).1 cellsPos).length ≠ 0)
    (h3 : (deductionSweep s).2.1 = 0)
    (h4 : (subsetGroupLoop groupsPos (deductionSweep s).1 0).2 = 0) :
    Solve (fuel + 1) s =
      ((subsetGroupLoop groupsPos (deductionSweep s).1 0).1, some Err.noSolution) := by
  rw [Solve]
  rcases hds : deductionSweep s with ⟨s', m', oe⟩
  rw [hds] at h1 h2 h3 h4
  simp only [] at h1 h2 h3 h4
  subst h1
  subst h3
  simp only []
  rw [if_neg (by simpa using h2), if_neg (by omega), if_neg (by omega)]

/-- Witness for C1 at a concrete stalled grid: one unit of fuel already ends
in `noSolution`. -/
theorem claim_C1_witness :
    Solve 1 gridC1 =
      ((subsetGroupLoop groupsPos (deductionSweep gridC1).1 0).1, some Err.noSolution) :=
  claim_C1 0 gridC1 (by rw [deductionSweep_gridC1])
    (by rw [deductionSweep_gridC1]; decide) (by rw [deductionSweep_gridC1])
    (by rw [deductionSweep_gridC1]; exact congrArg Prod.snd subsetGroupLoop_gridC1)

/-- Counterexample to C1 as stated: `Solve` fails on `gridC1` (the grid
`NewSudoku` builds from `cluesC1`) with `noSolution`, yet the puzzle is
solvable — a single candidate assignment (4 at (0,1)) followed by `Solve`
succeeds, and `Solve` returns no error only on a complete grid, so `Solve`
gave up without trying any candidate of any unset cell. -/
theorem claim_C1_counterexample :
    (Solve 3 gridC1).2 = some Err.noSolution ∧
    (gridC1.PlayMove 0 1 4).2 = none ∧
    (Solve 3 (gridC1.PlayMove 0 1 4).1).2 = none :=
  ⟨by decide, by decide, by decide⟩

/-- C2 (amended): every `Solve` call applies the FOUR techniques naked
single, hidden single, box elimination and line elimination, then decides:
if they made at least one change (and the grid is incomplete, no error),
`Solve` recurses immediately — the subset-exclusion pass is NOT part of such
a sweep; it runs only when the four techniques made no change.  The spec's
five-technique sweep is refuted by `claim_C2_counterexample`. -/
theorem claim_C2 (fuel : Nat) (s : Sudoku)
    (h1 : (deductionSweep s).2.2 = none)
    (h2 : (unsetOnly (deductionSweep s).1 cellsPos).length ≠ 0)
    (h3 : (deductionSweep s).2.1 > 0) :
    Solve (fuel + 1) s = Solve fuel (deductionSweep s).1 := by
  rw [Solve]
  rcases hds : deductionSweep s with ⟨s', m', oe⟩
  rw [hds] at h1 h2 h3
  simp only [] at h1 h2 h3
  subst h1
  simp only []
  rw [if_neg (by simpa using h2), if_pos h3]

/-- Witness for C2 at a concrete grid whose first sweep makes changes. -/
theorem claim_C2_witness :
    Solve 2 gridC2 = Solve 1 (deductionSweep gridC2).1 :=
  claim_C2 1 gridC2 (by rw [deductionSweep_gridC2])
    (by rw [deductionSweep_gridC2]; decide) (by rw [deductionSweep_gridC2]; decide)

/-- Counterexample to C2 as stated: on `gridC2` the code's `Solve` (subset
exclusion deferred to stalls) and `SolveClaimed` (the spec's five-technique
sweep) abort with contradiction errors at different cells. -/
theorem claim_C2_counterexample :
    (Solve 3 gridC2).2 = some (Err.noMovesLeft 2 2) ∧
    (SolveClaimed 3 gridC2).2 = some (Err.noMovesLeft 1 2) :=
  ⟨by decide, by decide⟩

/-- C3: a fully validated assignment mutates the grid to `assignResult` (set
the cell, eliminate the value from row, column and box peers) and fails with
the contradiction error `noMovesLeft` exactly when some unset cell anywhere
in the grid is left with an empty candidate mask; if every unset cell keeps a
candidate, it returns no error. -/
theorem claim_C3 (s : Sudoku) (r c v : Nat)
    (hr : r < 9) (hc : c < 9) (hv1 : 1 ≤ v) (hv2 : v ≤ 9)
    (h0 : (s.cellAt (r, c)).value = 0)
    (hrow : Moves.has (remainingMoves s (rowPos r)) v = true)
    (hcol : Moves.has (remainingMoves s (colPos c)) v = true)
    (hsq : Moves.has (remainingMoves s (squarePos (r / 3) (c / 3))) v = true)
    (hcan : Cell.CanPlay (s.cellAt (r, c)) v = true) :
    ((∃ p ∈ cellsPos, ((assignResult s r c v).cellAt p).value = 0 ∧
        ((assignResult s r c v).cellAt p).moves = 0) →
      ∃ p : Pos, s.PlayMove r c v =
        (assignResult s r c v, some (Err.noMovesLeft p.1 p.2))) ∧
    ((∀ p ∈ cellsPos, ((assignResult s r c v).cellAt p).value = 0 →
        ((assignResult s r c v).cellAt p).moves ≠ 0) →
      s.PlayMove r c v = (assignResult s r c v, none)) := by
  have heq := playMove_success_eq s r c v hr hc hv1 hv2 h0 hrow hcol hsq hcan
  constructor
  · intro hex
    rcases hscan : contradictionScan (assignResult s r c v) with _ | p
    · exfalso
      rcases hex with ⟨p, hp, hzero, hmoves⟩
      rw [contradictionScan] at hscan
      have hnone := List.find?_eq_none.1 hscan p hp
      simp [hzero, hmoves] at hnone
    · refine ⟨p, ?_⟩
      rw [heq, hscan]
  · intro hall
    rcases hscan : contradictionScan (assignResult s r c v) with _ | p
    · rw [heq, hscan]
    · exfalso
      rw [contradictionScan] at hscan
      have hmem := List.mem_of_find?_eq_some hscan
      have hpred := List.find?_some hscan
      simp only [Bool.and_eq_true, beq_iff_eq, decide_eq_true_eq] at hpred
      exact hall p hmem hpred.1 hpred.2

/-- Witness for C3 at a concrete input: playing 5 at (0,0) of the fresh grid
leaves every unset cell with candidates, so the move reports no error. -/
theorem claim_C3_witness :
    initialSudoku.PlayMove 0 0 5 = (assignResult initialSudoku 0 0 5, none) :=
  (claim_C3 initialSudoku 0 0 5 (by decide) (by decide) (by decide) (by decide)
    (by decide) (by decide) (by decide) (by decide) (by decide)).2
    (by rw [assignResult_initial]; decide)

/-- C4: in the subset-exclusion pass, a subset of a group's unset cells is
skipped when it is smaller than 2 or as large as the whole unset set (in
particular the spec's degenerate whole-group case never triggers), it leaves
the grid untouched when the cardinality of its candidate union differs from
its size, and when it qualifies (size 2..n−1, union cardinality equal to its
size) those union values are eliminated from every other unset cell of the
group. -/
theorem claim_C4 (gU sub : List Pos) (s : Sudoku) (m : Nat) :
    ((sub.length < 2 ∨ sub.length = gU.length) → subsetApply gU sub s m = (s, m)) ∧
    (2 ≤ sub.length → sub.length ≠ gU.length →
      sub.length ≠ (Moves.slice (remainingMoves s sub)).length →
      subsetApply gU sub s m = (s, m)) ∧
    (2 ≤ sub.length → sub.length ≠ gU.length →
      sub.length = (Moves.slice (remainingMoves s sub)).length →
      ∀ v ∈ Moves.slice (remainingMoves s sub), ∀ q ∈ excluding gU sub,
        Cell.CanPlay (((subsetApply gU sub s m).1).cellAt q) v = false) := by
  refine ⟨fun h => subsetApply_skip gU sub s m h,
    fun h1 h2 h3 => subsetApply_nontrigger gU sub s m (not_or.2 ⟨by omega, h2⟩) h3,
    fun h1 h2 h3 v hv q hq => ?_⟩
  rw [subsetApply_trigger gU sub s m (not_or.2 ⟨by omega, h2⟩) h3]
  exact subsetValueLoop_clears (excluding gU sub) (Moves.slice (remainingMoves s sub))
    s m v hv q hq

/-- Witness for C4: on masks {1,2}, {1,2}, {1,3} the whole-group subset is
skipped, while the qualifying pair {1,2}, {1,2} strips 1 from the third
cell. -/
theorem claim_C4_witness :
    subsetApply [(0, 0), (0, 1), (0, 2)] [(0, 0), (0, 1), (0, 2)] gridC4 0 = (gridC4, 0) ∧
    Cell.CanPlay
      (((subsetApply [(0, 0), (0, 1), (0, 2)] [(0, 0), (0, 1)] gridC4 0).1).cellAt (0, 2))
      1 = false :=
  ⟨(claim_C4 [(0, 0), (0, 1), (0, 2)] [(0, 0), (0, 1), (0, 2)] gridC4 0).1 (Or.inr rfl),
   (claim_C4 [(0, 0), (0, 1), (0, 2)] [(0, 0), (0, 1)] gridC4 0).2.2 (by decide)
     (by decide) (by decide) 1 (by decide) (0, 2) (by decide)⟩

/-- C5: candidate removal is monotonic — once a value is absent from a cell's
candidate mask, it is still absent after any sequence of engine operations
(assignments, eliminations, deduction sweeps, subset passes, whole solves) on
that grid. -/
theorem claim_C5 (s : Sudoku) (ops : List Op) (p : Pos) (v : Nat)
    (h : Moves.has ((s.cellAt p).moves) v = false) :
    Moves.has (((runOps s ops).cellAt p).moves) v = false :=
  MSub.has_false ((runOps_evolves ops s p).1) h

/-- Witness for C5: after playing 5 at (0,0), cell (0,1) has lost candidate
5, and a subsequent full deduction sweep does not bring it back. -/
theorem claim_C5_witness :
    Moves.has (((runOps (initialSudoku.PlayMove 0 0 5).1 [Op.sweep]).cellAt (0, 1)).moves)
      5 = false :=
  claim_C5 (initialSudoku.PlayMove 0 0 5).1 [Op.sweep] (0, 1) 5 (by decide)

/-- C6 (amended): `Solve` terminates on every input grid — with fuel
exceeding the grid measure (total candidate count plus unset-cell count,
which strictly drops at every recursive call) the fuel marker is never
reached, so the Go recursion is finite.  The other half of the original
claim, that an unsatisfiable puzzle ends in `NoSolution` or a construction
error, is refuted by `claim_C6_counterexample`. -/
theorem claim_C6 (s : Sudoku) :
    (Solve (gridMeasure s + 1) s).2 ≠ some Err.outOfFuel :=
  solve_no_outOfFuel (gridMeasure s + 1) s (Nat.lt_succ_self _)

/-- Counterexample to the error half of C6: `cluesC6` is unsatisfiable, its
construction succeeds, yet `Solve` ends with the contradiction error
`noMovesLeft 0 1` — not `noSolution` and not a construction error. -/
theorem claim_C6_counterexample :
    (∀ sol : Pos → Nat, ¬ IsSolution cluesC6 sol) ∧
    NewSudoku cluesC6 = (gridC6, none) ∧
    (Solve 3 gridC6).2 = some (Err.noMovesLeft 0 1) ∧
    Err.noMovesLeft 0 1 ≠ Err.noSolution :=
  ⟨cluesC6_unsat, by decide, by decide, by decide⟩

/-- C7: on an in-bounds, in-range move to an unset cell, `PlayMove` fails
with the row (resp. column, box) conflict error exactly when the value is
absent from the remaining-candidates union of the cell's row (resp. column,
box), checking row first, then column, then box, and leaves the grid
unchanged; when the value is present in all three unions, no group-conflict
error can be returned. -/
theorem claim_C7 (s : Sudoku) (r c v : Nat)
    (hr : r < 9) (hc : c < 9) (hv1 : 1 ≤ v) (hv2 : v ≤ 9)
    (h0 : (s.cellAt (r, c)).value = 0) :
    (Moves.has (remainingMoves s (rowPos r)) v = false →
      s.PlayMove r c v = (s, some (Err.rowConflict r v))) ∧
    (Moves.has (remainingMoves s (rowPos r)) v = true →
      Moves.has (remainingMoves s (colPos c)) v = false →
      s.PlayMove r c v = (s, some (Err.colConflict c v))) ∧
    (Moves.has (remainingMoves s (rowPos r)) v = true →
      Moves.has (remainingMoves s (colPos c)) v = true →
      Moves.has (remainingMoves s (squarePos (r / 3) (c / 3))) v = false →
      s.PlayMove r c v = (s, some (Err.squareConflict (r / 3) (c / 3) v))) ∧
    (Moves.has (remainingMoves s (rowPos r)) v = true →
      Moves.has (remainingMoves s (colPos c)) v = true →
      Moves.has (remainingMoves s (squarePos (r / 3) (c / 3))) v = true →
      ∀ e, (s.PlayMove r c v).2 = some e →
        (∀ a b, e ≠ Err.rowConflict a b) ∧ (∀ a b, e ≠ Err.colConflict a b) ∧
        (∀ a b d, e ≠ Err.squareConflict a b d)) := by
  refine ⟨fun hR => ?_, fun hR hC => ?_, fun hR hC hS => ?_, fun hR hC hS e he => ?_⟩
  · rw [Sudoku.PlayMove, if_neg (by omega), if_neg (by omega), if_neg (by omega)]
    simp only [Int.toNat_natCast]
    rw [if_neg (by simp [h0]), if_pos (by simp [hR])]
  · rw [Sudoku.PlayMove, if_neg (by omega), if_neg (by omega), if_neg (by omega)]
    simp only [Int.toNat_natCast]
    rw [if_neg (by simp [h0]), if_neg (by simp [hR]), if_pos (by simp [hC])]
  · rw [Sudoku.PlayMove, if_neg (by omega), if_neg (by omega), if_neg (by omega)]
    simp only [Int.toNat_natCast]
    rw [if_neg (by simp [h0]), if_neg (by simp [hR]), if_neg (by simp [hC]),
      if_pos (by simp [hS])]
  · by_cases hcan : Cell.CanPlay (s.cellAt (r, c)) v = true
    · have heq := playMove_success_eq s r c v hr hc hv1 hv2 h0 hR hC hS hcan
      rw [heq] at he
      rcases hscan : contradictionScan (assignResult s r c v) with _ | p
      · rw [hscan] at he
        cases he
      · rw [hscan] at he
        simp only [Option.some.injEq] at he
        subst he
        exact ⟨fun a b => by simp, fun a b => by simp, fun a b d => by simp⟩
    · have hill : s.PlayMove r c v = (s, some (Err.illegalMove r c v)) := by
        rw [Sudoku.PlayMove, if_neg (by omega), if_neg (by omega), if_neg (by omega)]
        simp only [Int.toNat_natCast]
        rw [if_neg (by simp [h0]), if_neg (by simp [hR]), if_neg (by simp [hC]),
          if_neg (by simp [hS]), if_pos (by simp [hcan])]
      rw [hill] at he
      simp only [Option.some.injEq] at he
      subst he
      exact ⟨fun a b => by simp, fun a b => by simp, fun a b d => by simp⟩

/-- Witness for C7: with 5 assigned at (0,0), playing 5 at (0,1) fails with
the row conflict and the grid is returned unchanged. -/
theorem claim_C7_witness :
    ((initialSudoku.PlayMove 0 0 5).1).PlayMove 0 1 5 =
      ((initialSudoku.PlayMove 0 0 5).1, some (Err.rowConflict 0 5)) :=
  (claim_C7 (initialSudoku.PlayMove 0 0 5).1 0 1 5 (by decide) (by decide) (by decide)
    (by decide) (by decide)).1 (by decide)

/-- C8: `Clone` reproduces the full state — value and candidate mask — of
every cell.  The Go `board` is a value array of scalar-field cells, so the
embedding models `Clone` as a whole-board copy; a grid value is never
mutated in place, hence running any operation sequence on the clone yields
exactly the grids that running it on the original yields, and the original
`g` itself stays what it was. -/
theorem claim_C8 (g : Sudoku) (ops : List Op) (p : Pos) :
    (Sudoku.Clone g).cellAt p = g.cellAt p ∧
    runOps (Sudoku.Clone g) ops = runOps g ops :=
  ⟨rfl, rfl⟩

/-- C9: every candidate-set operation called with a value outside 1..9 fails
loudly: `Moves.Contains`, `Moves.Add`, `Moves.Remove` and
`Cell.EliminateMove` panic (modelled as `none`), and `Cell.Set` returns the
out-of-range error. -/
theorem claim_C9 (m : Moves) (c : Cell) (value : Int)
    (h : value < 1 ∨ value > 9) :
    Moves.Contains m value = none ∧ Moves.Add m value = none ∧
    Moves.Remove m value = none ∧ Cell.EliminateMove c value = none ∧
    Cell.Set c value = Except.error Err.cellValueOutOfRange := by
  have hmask : Moves.mask value = none := by rw [Moves.mask, if_pos h]
  have hcont : Moves.Contains m value = none := by
    rw [Moves.Contains, hmask]
    rfl
  refine ⟨hcont, ?_, ?_, ?_, ?_⟩
  · rw [Moves.Add, hcont]
  · rw [Moves.Remove, hcont]
  · rw [Cell.EliminateMove, if_pos h]
  · rw [Cell.Set, if_pos h]

/-- Witness for C9 at the concrete out-of-range value 10. -/
theorem claim_C9_witness :
    Moves.Contains Moves.full 10 = none ∧ Moves.Add Moves.full 10 = none ∧
    Moves.Remove Moves.full 10 = none ∧
    Cell.EliminateMove ⟨0, 0, 0, Moves.full⟩ 10 = none ∧
    Cell.Set ⟨0, 0, 0, Moves.full⟩ 10 = Except.error Err.cellValueOutOfRange :=
  claim_C9 Moves.full ⟨0, 0, 0, Moves.full⟩ 10 (by decide)

/-- C10: `PlayMove` is atomic only for its validation errors — any error
other than the contradiction error leaves the grid exactly as it was — while
a `noMovesLeft` failure happens after the mutation: the grid returned is
`assignResult`, in which the target cell holds the value with an empty
candidate mask and the value has been eliminated from every cell of the
target's row, column and box. -/
theorem claim_C10 (s : Sudoku) (row col value : Int) :
    (∀ e, (s.PlayMove row col value).2 = some e → (∀ a b, e ≠ Err.noMovesLeft a b) →
      (s.PlayMove row col value).1 = s) ∧
    (∀ a b, (s.PlayMove row col value).2 = some (Err.noMovesLeft a b) →
      ∃ r c v : Nat, row = (r : Int) ∧ col = (c : Int) ∧ value = (v : Int) ∧
        (s.PlayMove row col value).1 = assignResult s r c v ∧
        ((assignResult s r c v).cellAt (r, c)).value = v ∧
        ((assignResult s r c v).cellAt (r, c)).moves = 0 ∧
        (∀ q ∈ rowPos r, Moves.has (((assignResult s r c v).cellAt q).moves) v = false) ∧
        (∀ q ∈ colPos c, Moves.has (((assignResult s r c v).cellAt q).moves) v = false) ∧
        (∀ q ∈ squarePos (r / 3) (c / 3),
          Moves.has (((assignResult s r c v).cellAt q).moves) v = false)) := by
  constructor
  · intro e he hne
    exact playMove_fst_of_validation_error s row col value e he hne
  · intro a b hab
    rcases playMove_shape s row col value with ⟨e, heq, hne, -⟩ |
      ⟨r, c, v, hrw, hcw, hvw, hr, hc, hv1, hv2, h0, hrow, hcol, hsq, hcan, heq⟩
    · rw [heq] at hab
      simp only [Option.some.injEq] at hab
      exact absurd hab (hne a b)
    · refine ⟨r, c, v, hrw, hcw, hvw, ?_, ?_, ?_, ?_, ?_, ?_⟩
      · rw [heq]
      · exact (assignResult_target s r c v hv1 (Moves.moves_ne_zero_of_has hcan)).1
      · exact (assignResult_target s r c v hv1 (Moves.moves_ne_zero_of_has hcan)).2
      · exact (assignResult_clears s r c v).1
      · exact (assignResult_clears s r c v).2.1
      · exact (assignResult_clears s r c v).2.2

/-- Witness for C10: on `gridC10` the move (0,0) ← 5 fails the contradiction
scan, and the mutated grid persists with the assignment applied. -/
theorem claim_C10_witness :
    ∃ r c v : Nat, (0 : Int) = (r : Int) ∧ (0 : Int) = (c : Int) ∧ (5 : Int) = (v : Int) ∧
      (gridC10.PlayMove 0 0 5).1 = assignResult gridC10 r c v ∧
      ((assignResult gridC10 r c v).cellAt (r, c)).value = v ∧
      ((assignResult gridC10 r c v).cellAt (r, c)).moves = 0 ∧
      (∀ q ∈ rowPos r, Moves.has (((assignResult gridC10 r c v).cellAt q).moves) v = false) ∧
      (∀ q ∈ colPos c, Moves.has (((assignResult gridC10 r c v).cellAt q).moves) v = false) ∧
      (∀ q ∈ squarePos (r / 3) (c / 3),
        Moves.has (((assignResult gridC10 r c v).cellAt q).moves) v = false) :=
  (claim_C10 gridC10 0 0 5).2 0 1 (by decide)
